import Mathlib

/-!
# Mini-Bash command executor (`process.c`)

A shallow embedding of the command executor: the command tree, the shell-side
state (exit status `?`, directory stack, zombie counter, descriptor table,
output streams), the system calls the shell process makes, and the handlers
`executePipe`, `executeConditional`, `executeBackground`, `executeCD`,
`executePushd`, `executePopd` and `process`.

Only the process that calls `process` is followed.  A successful `fork` is
recorded as an event that names what the child goes on to run.  Of the
children, those of the pipeline stages are followed as far as their `setenv`
calls, through `redirectFile`, which can end them first.
-/

namespace MiniBash

/-! ## Command tree -/

/-- Modelled from the spec: the node kinds of `CMD` (declared in `process.h`,
which is not part of the sources).  `NONE` stands for any other value. -/
inductive CmdType where
  | NONE | SIMPLE | PIPE | SEP_AND | SEP_OR | SEP_END | SEP_BG | SUBCMD
  deriving DecidableEq, Repr

/-- Modelled from the spec: the redirection kinds of `CMD` (declared in
`process.h`). -/
inductive RedType where
  | NONE | RED_IN | RED_IN_HERE | RED_OUT | RED_OUT_APP
  deriving DecidableEq, Repr

/-- Modelled from the spec: the non-pointer fields of a `CMD` node.  `argv` is
the NULL-terminated argument vector without its terminator, so `argv[k]` is
NULL exactly when `k` is not an index of the list. -/
structure CmdInfo where
  type : CmdType
  argv : List String
  nLocal : Nat
  locVar : List String
  locVal : List String
  fromType : RedType
  fromFile : Option String
  toType : RedType
  toFile : Option String
  deriving DecidableEq, Repr

/-- A `CMD *`: either NULL or a node with its two child pointers. -/
inductive CMD where
  | null : CMD
  | node (info : CmdInfo) (left right : CMD) : CMD
  deriving DecidableEq, Repr

/-- A node of kind `ty` with argument vector `argv` and no bindings or
redirections. -/
def CmdInfo.plain (ty : CmdType) (argv : List String) : CmdInfo :=
  { type := ty, argv := argv, nLocal := 0, locVar := [], locVal := [],
    fromType := .NONE, fromFile := none, toType := .NONE, toFile := none }

/-- A SIMPLE leaf. -/
def CMD.simple (argv : List String) : CMD :=
  .node (CmdInfo.plain .SIMPLE argv) .null .null

/-- A binary operator node. -/
def CMD.op (ty : CmdType) (l r : CMD) : CMD :=
  .node (CmdInfo.plain ty []) l r

/-! ## Flattening a pipe subtree -/

/-- `countPipes(cmdList, &size)`: the new value of `*size`, or `none` when a
NULL pointer is dereferenced. -/
def countPipes : CMD → Nat → Option Nat
  | .null, _ => none
  | .node info left right, size =>
    if info.type ≠ .PIPE then some (size + 1)
    else
      match countPipes left size with
      | none => none
      | some size1 => countPipes right size1

/-- `flattenPipes(cmdList, &pipeList, &i)`: the array and index after the
call, or `none` when a NULL pointer is dereferenced or the store
`(*pipeList)[*i]` falls outside the array. -/
def flattenPipes : CMD → List CMD × Nat → Option (List CMD × Nat)
  | .null, _ => none
  | .node info left right, (pipeList, i) =>
    if info.type ≠ .PIPE then
      if i < pipeList.length then
        some (pipeList.set i (.node info left right), i + 1)
      else none
    else
      match flattenPipes left (pipeList, i) with
      | none => none
      | some st => flattenPipes right st

/-- The non-PIPE descendants of a pipe subtree that hang off PIPE nodes, read
left to right (the specification of the flattening). -/
def pipeStages : CMD → List CMD
  | .null => []
  | .node info left right =>
    if info.type = .PIPE then pipeStages left ++ pipeStages right
    else [.node info left right]

/-- Every PIPE node of the subtree has both children set. -/
def pipeWellFormed : CMD → Bool
  | .null => false
  | .node info left right =>
    if info.type = .PIPE then pipeWellFormed left && pipeWellFormed right
    else true

/-- The tree is rooted at a PIPE node and every PIPE node in it has both
children set. -/
def isPipeTree : CMD → Bool
  | .null => false
  | .node info left right =>
    info.type = .PIPE && pipeWellFormed (.node info left right)

/-! ## Shell state and system calls -/

/-- Modelled from the spec: the `STATUS` macro of `process.h`, which the spec
describes as `WEXITSTATUS(raw_status)`: bits 8..15 of the raw wait status. -/
def STATUS (raw : Int) : Nat := ((raw / 256) % 256).toNat

/-- The directory stack `charStack`: `elements` is the allocated array (one
entry per slot, `capacity` slots), of which the first `size` are live. -/
structure charStack where
  size : Nat
  capacity : Nat
  elements : List String
  deriving DecidableEq, Repr

/-- `STACK_INIT_SIZE`. -/
def STACK_INIT_SIZE : Nat := 4

/-- What a forked child goes on to run. -/
inductive Child where
  | single (c : CMD)
  | stage (k : Nat) (c : CMD)
  | subshell (c : CMD)
  | background (c : CMD)
  deriving DecidableEq, Repr

/-- Steps of the shell process that the properties refer to, in order: a call
of `process` on a node, and a `fork` that succeeded, with the PID it returned
and what the child goes on to run. -/
inductive Event where
  | enter (c : CMD)
  | forked (pid : Nat) (child : Child)
  deriving DecidableEq, Repr

/-- Result of a system call that returns 0 or -1 with `errno`. -/
inductive Sys where
  | ok
  | fail (errno : Nat)
  deriving DecidableEq, Repr

/-- Result of `fork()` in the calling process: the PID of the new child, or
-1 with `errno`. -/
inductive ForkRes where
  | child (pid : Nat)
  | fail (errno : Nat)
  deriving DecidableEq, Repr

/-- Result of a blocking `wait`/`waitpid`: -1, or a reaped child with its raw
status. -/
inductive WaitRes where
  | fail
  | reaped (pid : Nat) (raw : Int)
  deriving DecidableEq, Repr

/-- State of the shell process together with the results its future system
calls will have (one list per call, consumed front to back).  When a list is
used up, `fork` fails with EAGAIN, `wait` fails, `waitpid(WNOHANG)` returns 0,
and `pipe`, `chdir`, `getcwd` succeed. -/
structure Shell where
  /-- value of the environment variable `?` -/
  status : String
  /-- value of the environment variable `HOME` -/
  home : Option String
  /-- working directory of the process -/
  cwd : String
  directoryStack : Option charStack
  zombies : Int
  /-- open descriptors of the process -/
  fds : List Nat
  /-- bytes written to standard output -/
  out : String
  /-- bytes written to standard error -/
  err : String
  trace : List Event
  forkRes : List ForkRes
  pipeRes : List Sys
  waitRes : List WaitRes
  pollRes : List (Option WaitRes)
  chdirRes : List Sys
  getcwdRes : List Sys
  deriving DecidableEq, Repr

/-- How a handler ends in the calling process. -/
inductive Outcome where
  /-- the handler returned to its caller -/
  | returned (s : Shell)
  /-- the process called `exit(code)` -/
  | exited (code : Nat) (s : Shell)
  /-- NULL dereference or out-of-bounds access: behaviour undefined -/
  | fault
  /-- recursion budget of the model used up -/
  | outOfFuel
  deriving DecidableEq, Repr

/-- Run `k` on the state a handler returned; pass any other ending on. -/
def Outcome.andThen (o : Outcome) (k : Shell → Outcome) : Outcome :=
  match o with
  | .returned s => k s
  | other => other

/-- `fork()`: on success the child is recorded in the trace. -/
def Shell.fork (s : Shell) (child : Child) : ForkRes × Shell :=
  match s.forkRes with
  | [] => (.fail 11, s)
  | .child pid :: rest =>
    (.child pid, { s with forkRes := rest, trace := s.trace ++ [.forked pid child] })
  | .fail e :: rest => (.fail e, { s with forkRes := rest })

/-- The lowest descriptor number that is not open. -/
def lowestFree (fds : List Nat) : Nat :=
  ((List.range (fds.length + 1)).find? (fun n => !fds.contains n)).getD fds.length

/-- `pipe(fd)`: on success returns `(fd[0], fd[1])`, the two lowest free
descriptors, now open. -/
def Shell.pipe (s : Shell) : Except Nat (Nat × Nat) × Shell :=
  match s.pipeRes with
  | .fail e :: rest => (.error e, { s with pipeRes := rest })
  | rest0 =>
    let r := lowestFree s.fds
    let w := lowestFree (r :: s.fds)
    (.ok (r, w), { s with pipeRes := rest0.tail, fds := s.fds ++ [r, w] })

/-- `close(fd)`. -/
def Shell.close (s : Shell) (fd : Nat) : Shell :=
  { s with fds := s.fds.filter (fun x => x != fd) }

/-- Blocking `wait(&result)` / `waitpid(pid, &result, 0)`. -/
def Shell.wait (s : Shell) : WaitRes × Shell :=
  match s.waitRes with
  | [] => (.fail, s)
  | w :: rest => (w, { s with waitRes := rest })

/-- `chdir(path)`: on success the working directory becomes the directory
the kernel resolves `path` to, `resolve cwd path`. -/
def Shell.chdir (resolve : String → String → String) (s : Shell) (path : String) :
    Sys × Shell :=
  match s.chdirRes with
  | .fail e :: rest => (.fail e, { s with chdirRes := rest })
  | rest0 => (.ok, { s with chdirRes := rest0.tail, cwd := resolve s.cwd path })

/-- `getcwd(pwd, sizeof(pwd))`: the working directory, or `errno`. -/
def Shell.getcwd (s : Shell) : Except Nat String × Shell :=
  match s.getcwdRes with
  | .fail e :: rest => (.error e, { s with getcwdRes := rest })
  | rest0 => (.ok s.cwd, { s with getcwdRes := rest0.tail })

/-- `errorStatus(message, extract)` with the current `errno`: report on
standard error and store the error number in `?`.  The text `perror` prints
for the error is represented by its number. -/
def errorStatus (message : String) (extract : Bool) (errno : Nat) (s : Shell) : Shell :=
  { s with
    err := s.err ++ message ++ ": errno " ++ toString errno ++ "\n",
    status := toString (if extract then STATUS errno else errno) }

/-! ## Directory builtins -/

/-- The loop `while (pwd[pwdLen - 1 - parentLen] != '/') parentLen++;` of
`executeCD`: the value of `parentLen` when the loop stops, or `none` when the
index falls below 0 (a read in front of the buffer).  The first argument
bounds the number of iterations; `pwd.length + 1` is never reached. -/
def parentScan (pwd : List Char) : Nat → Nat → Option Nat
  | 0, _ => none
  | fuel + 1, parentLen =>
    if pwd.length < 1 + parentLen then none
    else if pwd[pwd.length - 1 - parentLen]? ≠ some '/' then
      parentScan pwd fuel (parentLen + 1)
    else some parentLen

/-- The path `executeCD` builds for an argument that starts with `..`, from
the working directory `pwd` that `getcwd` returned: `cutPwd` followed by what
comes after the two dots.  `none` when a read falls outside `pwd`. -/
def cdParentPath (pwd arg : String) : Option String :=
  let pwdLen := pwd.data.length
  if pwdLen = 0 then none
  else
    let parentLen0 := if pwd.data[pwdLen - 1]? = some '/' then 1 else 0
    match parentScan pwd.data (pwdLen + 1) parentLen0 with
    | none => none
    | some parentLen1 =>
      let parentLen := parentLen1 + 1
      let cutPwd := pwd.data.take (pwdLen - parentLen)
      some (String.mk (cutPwd ++ (if arg.data.length > 2 then arg.data.drop 2 else [])))

/-- The path `executeCD` builds for a relative argument: `pwd`, a `/` unless
`pwd` already ends in one, and `rest`.  `none` when `pwd` is empty (the read
`pwd[len - 1]` is then in front of the buffer). -/
def cdJoinPath (pwd rest : String) : Option String :=
  if pwd.data.length = 0 then none
  else if pwd.data[pwd.data.length - 1]? ≠ some '/' then some (pwd ++ "/" ++ rest)
  else some (pwd ++ rest)

/-- The tail shared by the branches of `executeCD`: `chdir(directory)`, then
`errorStatus("cd: chdir fail", false)` on -1 and `?` := "0" otherwise. -/
def cdChdir (resolve : String → String → String) (directory : String) (s : Shell) : Shell :=
  match s.chdir resolve directory with
  | (.fail e, s1) => errorStatus "cd: chdir fail" false e s1
  | (.ok, s1) => { s1 with status := "0" }

/-- The branches of `executeCD` that call `getcwd` first: build the target
from the working directory with `mk` and change to it. -/
def cdFromCwd (resolve : String → String → String) (mk : String → Option String)
    (s : Shell) : Outcome :=
  match s.getcwd with
  | (.error e, s1) => .returned (errorStatus "cd: getcwd fail" false e s1)
  | (.ok pwd, s1) =>
    match mk pwd with
    | none => .fault
    | some directory => .returned (cdChdir resolve directory s1)

/-- `executeCD(cmdList)`. -/
def executeCD (resolve : String → String → String) (info : CmdInfo) (s : Shell) : Outcome :=
  match info.argv[1]? with
  | some arg =>
    if (info.argv[2]?).isSome then
      .returned { s with err := s.err ++ "usage: cd OR cd <dirName>\n", status := "1" }
    else if arg.data[0]? = some '/' then
      .returned (cdChdir resolve arg s)
    else if arg.data[0]? = some '.' ∧ arg.data.length = 1 then
      .returned { s with status := "0" }
    else if arg.data[0]? = some '.' ∧ arg.data[1]? = some '/' then
      cdFromCwd resolve (fun pwd => cdJoinPath pwd (String.mk (arg.data.drop 2))) s
    else if arg.data[0]? = some '.' ∧ arg.data[1]? = some '.' then
      cdFromCwd resolve (fun pwd => cdParentPath pwd arg) s
    else
      cdFromCwd resolve (fun pwd => cdJoinPath pwd arg) s
  | none =>
    match s.home with
    | some home => .returned (cdChdir resolve home s)
    | none => .returned (errorStatus "cd: chdir fail" false 14 s)

/-- The listing `pushd` and `popd` print: the working directory, then the
live stack entries from the top down, each after one blank, and a newline. -/
def dirListing (pwd : String) (ds : charStack) : String :=
  pwd ++ String.join (((ds.elements.take ds.size).reverse).map (fun e => " " ++ e)) ++ "\n"

/-- The live entries of the directory stack, bottom first; empty when the
stack was never allocated. -/
def Shell.stackEntries (s : Shell) : List String :=
  match s.directoryStack with
  | none => []
  | some ds => ds.elements.take ds.size

/-- The first step of `executePushd`: allocate the stack when
`directoryStack` is NULL. -/
def stackAlloc (st : Option charStack) : charStack :=
  match st with
  | none => { size := 0, capacity := STACK_INIT_SIZE,
              elements := List.replicate STACK_INIT_SIZE "" }
  | some ds => ds

/-- The second step of `executePushd`: double `capacity` and `realloc` the
array when `size >= capacity`. -/
def stackGrow (ds : charStack) : charStack :=
  if ds.size ≥ ds.capacity then
    { ds with
      capacity := ds.capacity * 2,
      elements := (ds.elements ++ List.replicate (ds.capacity * 2) "").take (ds.capacity * 2) }
  else ds

/-- `executePushd(cmdList)`. -/
def executePushd (resolve : String → String → String) (info : CmdInfo) (s : Shell) : Outcome :=
  if (info.argv[2]?).isSome then
    .returned { s with err := s.err ++ "usage: pushd <dirName>\n", status := "1" }
  else
    let ds1 : charStack := stackGrow (stackAlloc s.directoryStack)
    match s.getcwd with
    | (.error e, s1) =>
      .exited 1 { s1 with directoryStack := some ds1,
                          err := s1.err ++ "getcwd: errno " ++ toString e ++ "\n" }
    | (.ok pwd, s1) =>
      if ds1.size < ds1.elements.length then
        let ds2 : charStack :=
          { ds1 with elements := ds1.elements.set ds1.size pwd, size := ds1.size + 1 }
        (executeCD resolve info { s1 with directoryStack := some ds2 }).andThen fun s2 =>
          if s2.status = "0" then
            match s2.getcwd with
            | (.error e, s3) => .returned (errorStatus "cd: getcwd fail" false e s3)
            | (.ok pwd2, s3) =>
              .returned { s3 with status := "0", out := s3.out ++ dirListing pwd2 ds2 }
          else
            .returned { s2 with directoryStack := some { ds2 with size := ds2.size - 1 } }
      else .fault

/-- `executePopd(cmdList)`.  The store `cmdList->argv[1] = ...` lands in the
slot of the NULL terminator; the slot after it is taken to read as NULL. -/
def executePopd (resolve : String → String → String) (info : CmdInfo) (s : Shell) : Outcome :=
  if (info.argv[1]?).isSome then
    .returned { s with err := s.err ++ "usage: popd\n", status := "1" }
  else
    match s.directoryStack with
    | none => .returned { s with err := s.err ++ "popd: dir stack empty\n", status := "1" }
    | some ds =>
      if ds.size = 0 then
        .returned { s with err := s.err ++ "popd: dir stack empty\n", status := "1" }
      else
        let ds1 : charStack := { ds with size := ds.size - 1 }
        match ds1.elements[ds1.size]? with
        | none => .fault
        | some top =>
          let info1 : CmdInfo := { info with argv := info.argv.take 1 ++ [top] }
          (executeCD resolve info1 { s with directoryStack := some ds1 }).andThen fun s2 =>
            match s2.getcwd with
            | (.error e, s3) => .returned (errorStatus "cd: getcwd fail" false e s3)
            | (.ok pwd, s3) =>
              .returned { s3 with status := "0", out := s3.out ++ dirListing pwd ds1 }

/-! ## Simple commands, subshells and pipelines -/

/-- The parent side of `executeSingle` and `executeSubcommand` after a
successful fork: `waitpid(pid, &result, 0)` with `result` preset to -1, then
`?` := `STATUS(result)` unless `result` is still -1. -/
def waitChild (s : Shell) : Shell :=
  match s.wait with
  | (.fail, s1) => s1
  | (.reaped _ raw, s1) =>
    if raw ≠ -1 then { s1 with status := toString (STATUS raw) } else s1

/-- `executeSingle(cmdList)`, in the calling process. -/
def executeSingle (c : CMD) (s : Shell) : Outcome :=
  match s.fork (.single c) with
  | (.fail e, s1) => .returned (errorStatus "fork" false e s1)
  | (.child _, s1) => .returned (waitChild s1)

/-- `executeSubcommand(cmdList)`, in the calling process. -/
def executeSubcommand (c : CMD) (s : Shell) : Outcome :=
  match s.fork (.subshell c) with
  | (.fail e, s1) => .returned (errorStatus "subshell: fork failed" false e s1)
  | (.child _, s1) => .returned (waitChild s1)

/-- Local variables of `executePipe` that the chain loop updates. -/
structure PipeVars where
  i : Nat
  fdin : Nat
  processes : List Nat
  deriving DecidableEq, Repr

/-- The loop `for (i = 0; i < size-1; i++)` of `executePipe`, in the calling
process; the first argument counts the iterations still to run.  `inl` is an
early `return`, `inr` the state when the loop is left. -/
def pipeChain (pipeList : List CMD) : Nat → PipeVars → Shell → Shell ⊕ (PipeVars × Shell)
  | 0, v, s => .inr (v, s)
  | k + 1, v, s =>
    match s.pipe with
    | (.error e, s1) => .inl (errorStatus "pipe: pipe faild" false e s1)
    | (.ok (fd0, fd1), s1) =>
      match s1.fork (.stage v.i (pipeList.getD v.i .null)) with
      | (.fail e, s2) => .inl (errorStatus "fork" false e s2)
      | (.child pid, s2) =>
        let s3 := if v.i > 1 then s2.close v.fdin else s2
        pipeChain pipeList k
          { i := v.i + 1, fdin := fd0, processes := v.processes.set v.i pid }
          (s3.close fd1)

/-- The loop `for (i = 0; i < size; i++)` of `executePipe` that waits for the
children, by recursion on the results `wait` will have; `i` is the loop
counter and `status` the local of that name.  A reaped PID that is not in
`processes` leaves `i` as it was (`i--` followed by the loop's `i++`).  When
no results are left every further `wait` returns -1 and only `i` advances. -/
def pipeWait (size : Nat) (processes : List Nat) :
    List WaitRes → Nat → Nat → Shell → Shell
  | [], _, _, s => { s with waitRes := [] }
  | w :: rest, i, status, s =>
    if i < size then
      match w with
      | .fail => pipeWait size processes rest (i + 1) status s
      | .reaped pid raw =>
        if processes.contains pid then
          let status1 := if STATUS raw ≠ 0 then STATUS raw else status
          pipeWait size processes rest (i + 1) status1 { s with status := toString status1 }
        else
          pipeWait size processes rest i status
            { s with
              err := s.err ++ "Completed: " ++ toString pid ++ " (" ++ toString status ++ ")\n",
              zombies := s.zombies - 1 }
    else { s with waitRes := w :: rest }

/-- `executePipe(cmdList)`, in the calling process. -/
def executePipe (cmdList : CMD) (s : Shell) : Outcome :=
  match countPipes cmdList 0 with
  | none => .fault
  | some size =>
    match flattenPipes cmdList (List.replicate size .null, 0) with
    | none => .fault
    | some (pipeList, _) =>
      match pipeChain pipeList (size - 1)
          { i := 0, fdin := 0, processes := List.replicate size 0 } s with
      | .inl s1 => .returned s1
      | .inr (v, s1) =>
        match s1.fork (.stage (size - 1) (pipeList.getD (size - 1) .null)) with
        | (.fail e, s2) => .returned (errorStatus "fork" false e s2)
        | (.child pid, s2) =>
          let processes := v.processes.set (size - 1) pid
          let s3 := if v.i > 1 then s2.close v.fdin else s2
          .returned (pipeWait size processes s3.waitRes 0 0 s3)

/-! ## Pipeline stages, in the forked child -/

/-- The loop `for (j = 0; j < n; j++) setenv(c->locVar[j], c->locVal[j], 1)`:
the `setenv` calls it makes, in order, or `none` when it reads past the end of
`locVar` or `locVal`. -/
def setLocals (info : CmdInfo) : Nat → Option (List (String × String))
  | 0 => some []
  | n + 1 =>
    match setLocals info n, info.locVar[n]?, info.locVal[n]? with
    | some calls, some var, some val => some (calls ++ [(var, val)])
    | _, _, _ => none

/-- One `open` or `mkstemp` call of `redirectFile`, followed by the test
`redirect < 0`: `.error errno` when the call fails and the child ends in
`errorSingleExit(argv[0], errno)`, otherwise the results left for later calls.
Modelled from the spec: `errorSingleExit` is a macro of `process.h`, which
reports the error against `argv[0]` and terminates the child with the error
number as exit code. -/
def openOrExit : List Sys → Except Nat (List Sys)
  | .fail e :: _ => .error e
  | _ :: rest => .ok rest
  | [] => .ok []

/-- The function `redirectFile(cmdList)`, which runs in a forked child.  `opens` holds the
results that the child's `open` and `mkstemp` calls will have (success once
the list is used up).  `some (.error errno)` when the child is ended by
`errorSingleExit`, `some (.ok rest)` when `redirectFile` returns, `none` when
`strlen(cmdList->fromFile)` reads through NULL.  `redirectFile` calls no
`setenv`. -/
def redirectFile (info : CmdInfo) (opens : List Sys) : Option (Except Nat (List Sys)) :=
  let afterFrom : Option (Except Nat (List Sys)) :=
    if info.fromType = .RED_IN then some (openOrExit opens)
    else if info.fromType = .RED_IN_HERE then
      match openOrExit opens with
      | .error e => some (.error e)
      | .ok rest => if info.fromFile = none then none else some (.ok rest)
    else some (.ok opens)
  match afterFrom with
  | none => none
  | some (.error e) => some (.error e)
  | some (.ok opens1) =>
    if info.toType = .RED_OUT then some (openOrExit opens1)
    else if info.toType = .RED_OUT_APP then some (openOrExit opens1)
    else some (.ok opens1)

/-- The child forked for stage `i` inside the chain loop of `executePipe`
(`i < size-1`): the `setenv` calls it has made when it execs the SIMPLE
command, calls `process` on the SUBCMD body, or is ended by `redirectFile`.
`none` on a NULL dereference or a read outside the binding arrays. -/
def pipeChainChild (cmdList : CMD) (pipeList : List CMD) (i : Nat) (opens : List Sys) :
    Option (List (String × String)) :=
  match cmdList, pipeList.getD i .null with
  | .node root _ _, .node stage _ _ =>
    match (if i = 0 then setLocals stage stage.nLocal else some []) with
    | none => none
    | some first =>
      match redirectFile stage opens with
      | none => none
      | some (.error _) => some first
      | some (.ok _) =>
        if stage.type = .SIMPLE then some first
        else if stage.type = .SUBCMD then
          match setLocals stage root.nLocal with
          | none => none
          | some second => some (first ++ second)
        else some first
  | _, _ => none

/-- The child forked for the last stage of `executePipe`: the `setenv` calls
it has made when it execs, calls `process` on the SUBCMD body, or is ended by
`redirectFile`. -/
def pipeLastChild (pipeList : List CMD) (size : Nat) (opens : List Sys) :
    Option (List (String × String)) :=
  match pipeList.getD (size - 1) .null with
  | .node stage _ _ =>
    match redirectFile stage opens with
    | none => none
    | some (.error _) => some []
    | some (.ok _) =>
      if stage.type = .SIMPLE then some []
      else if stage.type = .SUBCMD then setLocals stage stage.nLocal
      else some []
  | .null => none

/-- The `setenv` calls made in the child that `executePipe(cmdList)` forks for
stage `k` of the flattened pipeline, when the `open` and `mkstemp` calls of
that child have the results `opens`. -/
def stageSetenv (cmdList : CMD) (k : Nat) (opens : List Sys) :
    Option (List (String × String)) :=
  match countPipes cmdList 0 with
  | none => none
  | some size =>
    match flattenPipes cmdList (List.replicate size .null, 0) with
    | none => none
    | some (pipeList, _) =>
      if k < size - 1 then pipeChainChild cmdList pipeList k opens
      else if k = size - 1 then pipeLastChild pipeList size opens
      else none

/-! ## Conditionals and background lists -/

/-- `executeConditional(cmdList)`; `process` is the recursive entry point. -/
def executeConditional (process : CMD → Shell → Outcome) (info : CmdInfo) (left right : CMD)
    (s : Shell) : Outcome :=
  (process left s).andThen fun s1 =>
    let result := s1.status
    if info.type = .SEP_AND then
      if result = "0" then process right s1 else .returned s1
    else if info.type = .SEP_OR then
      if result ≠ "0" then process right s1 else .returned s1
    else .returned s1

/-- Locals of `executeBackground` that `flattenBG` writes through pointers. -/
structure BGVars where
  backgroundList : List CMD
  foreground : CMD
  i : Nat
  deriving DecidableEq, Repr

/-- `flattenBG(cmdList, &backgroundList, &foreground, &i)`; `none` on a NULL
dereference or a store outside `backgroundList`. -/
def flattenBG : CMD → BGVars → Option BGVars
  | .null, _ => none
  | .node info left right, v =>
    if info.type ≠ .SEP_BG ∧ info.type ≠ .SEP_END then
      if v.i < v.backgroundList.length then
        some { v with backgroundList := v.backgroundList.set v.i (.node info left right),
                      i := v.i + 1 }
      else none
    else if info.type = .SEP_END then
      if v.i < v.backgroundList.length then
        some { backgroundList := v.backgroundList.set v.i right, foreground := left,
               i := v.i + 1 }
      else none
    else
      match flattenBG left v with
      | none => none
      | some v1 => if right ≠ .null then flattenBG right v1 else some v1

/-- `countBG(cmdList, &i)`; `none` on a NULL dereference. -/
def countBG : CMD → Nat → Option Nat
  | .null, _ => none
  | .node info left right, i =>
    if info.type ≠ .SEP_BG ∧ info.type ≠ .SEP_END then some (i + 1)
    else if info.type = .SEP_END then some (i + 1)
    else
      match countBG left i with
      | none => none
      | some i1 => if right ≠ .null then countBG right i1 else some i1

/-- The loop of `executeBackground` that forks one child per background
command; `inl` is the early `return` after a failed fork. -/
def forkBackground : List CMD → Shell → Shell ⊕ Shell
  | [], s => .inr s
  | c :: rest, s =>
    match s.fork (.background c) with
    | (.fail e, s1) => .inl (errorStatus "background, fork failed" false e s1)
    | (.child pid, s1) =>
      forkBackground rest
        { s1 with err := s1.err ++ "Backgrounded: " ++ toString pid ++ "\n",
                  zombies := s1.zombies + 1 }

/-- `executeBackground(cmdList)`; `process` is the recursive entry point. -/
def executeBackground (process : CMD → Shell → Outcome) (left right : CMD) (s : Shell) :
    Outcome :=
  match left with
  | .null => .fault
  | .node linfo ll lr =>
    let lists : Option (List CMD × CMD) :=
      if linfo.type = .SEP_END ∨ linfo.type = .SEP_BG then
        match countBG left 0 with
        | none => none
        | some size =>
          match flattenBG (.node linfo ll lr)
              { backgroundList := List.replicate size .null, foreground := .null, i := 0 } with
          | none => none
          | some v => some (v.backgroundList, v.foreground)
      else some ([.node linfo ll lr], .null)
    match lists with
    | none => .fault
    | some (backgroundList, foreground) =>
      (if foreground ≠ .null then process foreground s else .returned s).andThen fun s1 =>
        match forkBackground backgroundList s1 with
        | .inl s2 => .returned s2
        | .inr s2 =>
          (if right ≠ .null then process right s2 else .returned s2).andThen fun s3 =>
            .returned { s3 with status := "0" }

/-! ## Top-level dispatch -/

/-- The loop at the top of `process` that reaps finished background children
with `waitpid(-1, &status, WNOHANG)`. -/
def reapZombies : List (Option WaitRes) → Shell → Shell
  | [], s => { s with pollRes := [] }
  | none :: rest, s => { s with pollRes := rest }
  | some .fail :: rest, s => { s with pollRes := rest }
  | some (.reaped pid raw) :: rest, s =>
    if raw ≠ -1 then
      reapZombies rest
        { s with
          err := s.err ++ "Completed: " ++ toString pid ++ " (" ++ toString raw ++ ")\n",
          zombies := s.zombies - 1 }
    else { s with pollRes := rest }

/-- `process(cmdList)` in the calling process.  The first argument bounds the
depth of the recursion.  Installing the SIGINT handler changes nothing that
is followed here. -/
def process (resolve : String → String → String) : Nat → CMD → Shell → Outcome
  | 0, _, _ => .outOfFuel
  | _ + 1, .null, _ => .fault
  | fuel + 1, .node info left right, s0 =>
    let cmdList := CMD.node info left right
    let s := reapZombies s0.pollRes { s0 with trace := s0.trace ++ [.enter cmdList] }
    if info.type = .SIMPLE then
      match info.argv[0]? with
      | none => .fault
      | some name =>
        if name = "cd" then executeCD resolve info s
        else if name = "pushd" then executePushd resolve info s
        else if name = "popd" then executePopd resolve info s
        else executeSingle cmdList s
    else if info.type = .PIPE then executePipe cmdList s
    else if info.type = .SEP_AND ∨ info.type = .SEP_OR then
      executeConditional (process resolve fuel) info left right s
    else if info.type = .SUBCMD then executeSubcommand cmdList s
    else if info.type = .SEP_END then
      (process resolve fuel left s).andThen fun s1 => process resolve fuel right s1
    else if info.type = .SEP_BG then
      executeBackground (process resolve fuel) left right s
    else .returned { s with out := s.out ++ "Not implemented!\n" }

/-- The shape every directory stack built by `executePushd` has: the array
has `capacity` slots, `capacity` is positive and `size` does not exceed it. -/
def charStack.ok (ds : charStack) : Bool :=
  decide (ds.size ≤ ds.capacity) && decide (ds.elements.length = ds.capacity) &&
    decide (0 < ds.capacity)

/-- The directory stack is not allocated or has the shape `charStack.ok`. -/
def Shell.stackOk (s : Shell) : Bool :=
  match s.directoryStack with
  | none => true
  | some ds => ds.ok

/-- The string starts with `/`. -/
def isAbsolute (path : String) : Bool := path.data[0]? = some '/'

/-- The string starts with two dots. -/
def startsDotDot (arg : String) : Bool :=
  arg.data[0]? = some '.' && arg.data[1]? = some '.'

/-- Run commands one after the other through `process`, as the read-eval
loop does with the tree of each line; each tree here is a single node. -/
def runAll (resolve : String → String → String) : List CMD → Shell → Outcome
  | [], s => .returned s
  | c :: cs, s => (process resolve 1 c s).andThen (runAll resolve cs)

/-- Number of live entries of the directory stack; 0 when it was never
allocated. -/
def Shell.stackSize (s : Shell) : Nat :=
  match s.directoryStack with
  | none => 0
  | some ds => ds.size

/-- Descriptor bookkeeping of the chain loop of `executePipe`, with `F` the
descriptors open before the loop: before the first iteration nothing is
added; after it the read end of the first pipe is open and is `fdin`; from
the second iteration on that read end is still open, next to `fdin`. -/
def chainFds (F : List Nat) (v : PipeVars) (fds : List Nat) : Prop :=
  (v.i = 0 ∧ fds = F) ∨
  (v.i = 1 ∧ fds = F ++ [lowestFree F] ∧ v.fdin = lowestFree F) ∨
  (2 ≤ v.i ∧ fds = F ++ [lowestFree F, v.fdin] ∧ v.fdin ∉ F ++ [lowestFree F])

/-- A path the kernel hands out as a working directory: it is absolute, and
a successful `chdir` to it, from anywhere, leads to that very directory. -/
def canonical (resolve : String → String → String) (path : String) : Prop :=
  isAbsolute path = true ∧ ∀ cwd, resolve cwd path = path

/-- Every scripted `chdir` and `getcwd` of the shell succeeds. -/
def dirCallsSucceed (s : Shell) : Prop :=
  (∀ r ∈ s.chdirRes, r = Sys.ok) ∧ (∀ r ∈ s.getcwdRes, r = Sys.ok)

/-- A kernel that follows absolute paths literally and sends everything else
to `/`. -/
def flatKernel : String → String → String :=
  fun _ path => if isAbsolute path then path else "/"

/-- The handler does not end in `exit`, unless it is `exit(1)`. -/
def exitsOnlyWithOne (o : Outcome) : Prop :=
  ∀ code s', o = .exited code s' → code = 1

/-- The local bindings a node carries: its first `nLocal` pairs of `locVar`
and `locVal`. -/
def localBindings (info : CmdInfo) : List (String × String) :=
  (info.locVar.zip info.locVal).take info.nLocal

/-- The node is a SIMPLE or SUBCMD node whose binding arrays hold `nLocal`
entries each. -/
def isStage (c : CMD) : Bool :=
  match c with
  | .null => false
  | .node info _ _ =>
    (decide (info.type = .SIMPLE) || decide (info.type = .SUBCMD)) &&
      decide (info.locVar.length = info.nLocal) && decide (info.locVal.length = info.nLocal)

/-- The node is a SUBCMD node. -/
def isSubcmd (c : CMD) : Bool :=
  match c with
  | .null => false
  | .node info _ _ => decide (info.type = .SUBCMD)

/-- The local bindings of a stage; none for NULL. -/
def CMD.bindings (c : CMD) : List (String × String) :=
  match c with
  | .null => []
  | .node info _ _ => localBindings info

/-- The value of `nLocal` in the node; 0 for NULL. -/
def CMD.nLocal (c : CMD) : Nat :=
  match c with
  | .null => 0
  | .node info _ _ => info.nLocal

/-- The node is not a here-document redirection whose text pointer
`fromFile` is NULL. -/
def hasHereText : CMD → Bool
  | .node info _ _ => !(info.fromType = .RED_IN_HERE ∧ info.fromFile = none)
  | .null => true

/-- The shell before its first command: `?` is "0", descriptors 0, 1, 2 are
open, nothing has been printed, the directory stack is not allocated, and no
result is scripted for any system call. -/
def freshShell (cwd : String) : Shell :=
  { status := "0", home := some "/home/u", cwd := cwd, directoryStack := none, zombies := 0,
    fds := [0, 1, 2], out := "", err := "", trace := [],
    forkRes := [], pipeRes := [], waitRes := [], pollRes := [], chdirRes := [],
    getcwdRes := [] }

/-- A kernel in which `chdir(path)` leaves the process in `path` as given. -/
def literalPath : String → String → String := fun _ path => path

/-- The state a handler returned, if it returned. -/
def Outcome.state (o : Outcome) : Option Shell :=
  match o with
  | .returned s => some s
  | _ => none

/-- The `process` calls recorded in a trace, in order. -/
def entered (tr : List Event) : List CMD :=
  tr.filterMap fun e =>
    match e with
    | .enter c => some c
    | _ => none

/-- The pipeline status rule of the specification: the exit code of the last
member, in reap order, whose exit code is non-zero, and 0 when there is
none. -/
def lastNonZero (codes : List Nat) : Nat :=
  ((codes.filter (fun c => c ≠ 0)).getLast?).getD 0

/-- The exit codes, in reap order, of the reaped children that belong to the
pipeline with PIDs `pids`. -/
def memberCodes (pids : List Nat) (ws : List (Nat × Int)) : List Nat :=
  (ws.filter (fun w => pids.contains w.1)).map (fun w => STATUS w.2)

/-- The shell about to run `false` as child 100, which will exit with code
1, with a second child 101 still to come; and the state in which `process`
leaves it after `false`. -/
def afterFalse : Shell × Shell :=
  ({ freshShell "/" with forkRes := [.child 100, .child 101],
                         waitRes := [.reaped 100 256, .reaped 101 0] },
   { freshShell "/" with
     status := "1",
     trace := [.enter (.simple ["false"]), .forked 100 (.single (.simple ["false"]))],
     forkRes := [.child 101],
     waitRes := [.reaped 101 0] })

/-- A shell in `/a/b/c/d` whose directory stack is full (four entries in four
slots) and whose next `chdir` will fail with ENOENT. -/
def fullStackShell : Shell :=
  { freshShell "/a/b/c/d" with
    directoryStack := some { size := 4, capacity := 4,
                             elements := ["/", "/a", "/a/b", "/a/b/c"] },
    chdirRes := [.fail 2] }

/-- The SIMPLE command `a` carrying the binding `Y=2`. -/
def simpleWithY : CMD :=
  .node { CmdInfo.plain .SIMPLE ["a"] with nLocal := 1, locVar := ["Y"], locVal := ["2"] }
    .null .null

/-- The SUBCMD `(b)` carrying the binding `X=1`. -/
def subcmdWithX : CMD :=
  .node { CmdInfo.plain .SUBCMD [] with nLocal := 1, locVar := ["X"], locVal := ["1"] }
    (.simple ["b"]) .null

/-- A shell in `/x` whose directory stack holds `/` and, on top, `/gone`, and
whose next `chdir` will fail with ENOENT. -/
def goneTopShell : Shell :=
  { freshShell "/x" with
    directoryStack := some { size := 2, capacity := 4, elements := ["/", "/gone", "", ""] },
    chdirRes := [.fail 2] }

/-- The SIMPLE command `b` carrying the binding `X=1`. -/
def simpleWithX : CMD :=
  .node { CmdInfo.plain .SIMPLE ["b"] with nLocal := 1, locVar := ["X"], locVal := ["1"] }
    .null .null

/-- The SUBCMD `(b) < nonexistent` carrying the binding `X=1`. -/
def subcmdWithXFrom : CMD :=
  .node { CmdInfo.plain .SUBCMD [] with
          nLocal := 1, locVar := ["X"], locVal := ["1"],
          fromType := .RED_IN, fromFile := some "nonexistent" }
    (.simple ["b"]) .null

theorem pipeStages_length_pos (t : CMD) (h : pipeWellFormed t = true) :
    1 ≤ (pipeStages t).length := by
  induction t with
  | null => simp [pipeWellFormed] at h
  | node info l r ihl ihr =>
    by_cases hp : info.type = .PIPE
    · simp only [pipeWellFormed, hp, if_true, Bool.and_eq_true] at h
      have := ihl h.1
      simp only [pipeStages, hp, if_true, List.length_append]
      omega
    · simp [pipeStages, hp]

theorem countPipes_eq (t : CMD) (h : pipeWellFormed t = true) (n : Nat) :
    countPipes t n = some (n + (pipeStages t).length) := by
  induction t generalizing n with
  | null => simp [pipeWellFormed] at h
  | node info l r ihl ihr =>
    by_cases hp : info.type = .PIPE
    · simp only [pipeWellFormed, hp, if_true, Bool.and_eq_true] at h
      simp only [countPipes, pipeStages, hp, ne_eq, not_true_eq_false, if_false, if_true,
        ihl h.1, ihr h.2, List.length_append, Nat.add_assoc]
    · simp [countPipes, pipeStages, hp]

theorem pipeStages_mem (t : CMD) (c : CMD) (hc : c ∈ pipeStages t) :
    ∃ info l r, c = .node info l r ∧ info.type ≠ .PIPE := by
  induction t with
  | null => simp [pipeStages] at hc
  | node info l r ihl ihr =>
    by_cases hp : info.type = .PIPE
    · simp only [pipeStages, hp, if_true, List.mem_append] at hc
      rcases hc with h | h
      · exact ihl h
      · exact ihr h
    · simp only [pipeStages, hp, if_false, List.mem_singleton] at hc
      exact ⟨info, l, r, hc, hp⟩

theorem splice_take {α : Type} (A X D : List α) (i a : Nat) (hA : A.length = i) (hX : X.length = a) :
    (A ++ X ++ D).take (i + a) = A ++ X := by
  subst hA hX
  rw [← List.length_append]
  exact List.take_left' rfl

theorem splice_drop {α : Type} (A X : List α) (arr : List α) (i a b : Nat) (hA : A.length = i)
    (hX : X.length = a) :
    (A ++ X ++ arr.drop (i + a)).drop (i + a + b) = arr.drop (i + (a + b)) := by
  subst hA hX
  rw [← List.length_append, ← List.drop_drop, List.drop_left' rfl, List.drop_drop]
  congr 1
  simp only [List.length_append]
  omega

theorem flattenPipes_eq (t : CMD) (h : pipeWellFormed t = true) (arr : List CMD) (i : Nat)
    (hi : i + (pipeStages t).length ≤ arr.length) :
    flattenPipes t (arr, i) =
      some (arr.take i ++ pipeStages t ++ arr.drop (i + (pipeStages t).length),
        i + (pipeStages t).length) := by
  induction t generalizing arr i with
  | null => simp [pipeWellFormed] at h
  | node info l r ihl ihr =>
    by_cases hp : info.type = .PIPE
    · simp only [pipeWellFormed, hp, if_true, Bool.and_eq_true] at h
      simp only [pipeStages, hp, if_true, List.length_append] at hi ⊢
      have hA : (arr.take i).length = i := by simp; omega
      have h1 := ihl h.1 arr i (by omega)
      simp only [flattenPipes, hp, ne_eq, not_true_eq_false, if_false, h1]
      rw [ihr h.2 _ _ (by simp; omega)]
      rw [splice_take _ _ _ _ _ hA rfl, splice_drop _ _ _ _ _ _ hA rfl]
      simp [Nat.add_assoc]
    · have hlt : i < arr.length := by simp [pipeStages, hp] at hi; omega
      simp [flattenPipes, pipeStages, hp, hlt, List.set_eq_take_append_cons_drop]

theorem isPipeTree_flatten (u : CMD) (hu : isPipeTree u = true) :
    countPipes u 0 = some (pipeStages u).length ∧ 2 ≤ (pipeStages u).length ∧
    flattenPipes u (List.replicate (pipeStages u).length .null, 0) =
      some (pipeStages u, (pipeStages u).length) := by
  cases u with
  | null => simp [isPipeTree] at hu
  | node info l r =>
    simp only [isPipeTree, Bool.and_eq_true, decide_eq_true_eq] at hu
    obtain ⟨hp, hwf⟩ := hu
    have hwf' := hwf
    simp only [pipeWellFormed, hp, if_true, Bool.and_eq_true] at hwf'
    have hl := pipeStages_length_pos l hwf'.1
    have hr := pipeStages_length_pos r hwf'.2
    refine ⟨by simpa using countPipes_eq _ hwf 0, ?_, ?_⟩
    · simp only [pipeStages, hp, if_true, List.length_append]
      omega
    · have h := flattenPipes_eq (.node info l r) hwf
        (List.replicate (pipeStages (.node info l r)).length .null) 0 (by simp)
      simpa using h

/-- C3: for a tree rooted at a PIPE node in which every PIPE node has both
children set, `countPipes` computes `N ≥ 2`, and `flattenPipes` fills
`pipeList[0..N-1]` with exactly the non-PIPE descendants hanging off PIPE
nodes, left to right; every tree of PIPE nodes over the same left-to-right
sequence of stages, whatever its association, is flattened to that same
list. -/
theorem flattenPipes_fills_in_order (t : CMD) (ht : isPipeTree t = true) :
    ∃ N, countPipes t 0 = some N ∧ 2 ≤ N ∧
      flattenPipes t (List.replicate N .null, 0) = some (pipeStages t, N) ∧
      (pipeStages t).length = N ∧
      (∀ c ∈ pipeStages t, ∃ info l r, c = .node info l r ∧ info.type ≠ .PIPE) ∧
      (∀ t', isPipeTree t' = true → pipeStages t' = pipeStages t →
        countPipes t' 0 = some N ∧
        flattenPipes t' (List.replicate N .null, 0) = some (pipeStages t, N)) := by
  obtain ⟨h1, h2, h3⟩ := isPipeTree_flatten t ht
  refine ⟨(pipeStages t).length, h1, h2, h3, rfl, ?_, ?_⟩
  · intro c hc
    exact pipeStages_mem t c hc
  · intro t' ht' hsame
    obtain ⟨h1', _, h3'⟩ := isPipeTree_flatten t' ht'
    rw [hsame] at h1' h3'
    exact ⟨h1', h3'⟩

/-- C3, at the two associations of `a | b | c`: both trees satisfy the
hypothesis and both flatten to `[a, b, c]`. -/
theorem flattenPipes_fills_in_order_witness :
    isPipeTree (.op .PIPE (.op .PIPE (.simple ["a"]) (.simple ["b"])) (.simple ["c"])) = true ∧
    (∃ N, countPipes
        (.op .PIPE (.op .PIPE (.simple ["a"]) (.simple ["b"])) (.simple ["c"])) 0 = some N ∧
      2 ≤ N ∧
      flattenPipes (.op .PIPE (.op .PIPE (.simple ["a"]) (.simple ["b"])) (.simple ["c"]))
          (List.replicate N .null, 0) =
        some ([.simple ["a"], .simple ["b"], .simple ["c"]], N) ∧
      flattenPipes (.op .PIPE (.simple ["a"]) (.op .PIPE (.simple ["b"]) (.simple ["c"])))
          (List.replicate N .null, 0) =
        some ([.simple ["a"], .simple ["b"], .simple ["c"]], N)) := by
  refine ⟨by decide, ?_⟩
  obtain ⟨N, h1, h2, h3, _, _, h6⟩ := flattenPipes_fills_in_order
    (.op .PIPE (.op .PIPE (.simple ["a"]) (.simple ["b"])) (.simple ["c"])) (by decide)
  have h := h6 (.op .PIPE (.simple ["a"]) (.op .PIPE (.simple ["b"]) (.simple ["c"])))
    (by decide) (by decide)
  exact ⟨N, h1, h2, h3, h.2⟩

theorem Shell.pipe_ok (s : Shell) (h : ∀ r ∈ s.pipeRes, r = Sys.ok) :
    s.pipe = (.ok (lowestFree s.fds, lowestFree (lowestFree s.fds :: s.fds)),
      { s with pipeRes := s.pipeRes.tail,
               fds := s.fds ++ [lowestFree s.fds, lowestFree (lowestFree s.fds :: s.fds)] }) := by
  unfold Shell.pipe
  split
  · rename_i e rest heq
    have := h (.fail e) (by rw [heq]; simp)
    cases this
  · rfl

theorem Shell.fork_child (s : Shell) (c : Child) (pid : Nat) (rest : List ForkRes)
    (h : s.forkRes = .child pid :: rest) :
    s.fork c = (.child pid, { s with forkRes := rest, trace := s.trace ++ [.forked pid c] }) := by
  unfold Shell.fork
  rw [h]

theorem lowestFree_not_mem (fds : List Nat) : lowestFree fds ∉ fds := by
  unfold lowestFree
  cases h : (List.range (fds.length + 1)).find? (fun n => !fds.contains n) with
  | some n =>
    have := List.find?_some h
    simpa using this
  | none =>
    exfalso
    rw [List.find?_eq_none] at h
    have hsub : List.range (fds.length + 1) ⊆ fds := by
      intro n hn
      have := h n hn
      simpa using this
    have hle := (List.nodup_range (fds.length + 1)).subperm hsub |>.length_le
    simp at hle

theorem filter_ne_self (l : List Nat) (x : Nat) (h : x ∉ l) :
    l.filter (fun y => y != x) = l := by
  rw [List.filter_eq_self]
  intro a ha
  simp only [bne_iff_ne, ne_eq]
  intro hax
  exact h (hax ▸ ha)

theorem chainFds_step (F : List Nat) (v : PipeVars) (fds : List Nat) (p : Nat)
    (h : chainFds F v fds) :
    chainFds F
      { i := v.i + 1, fdin := lowestFree fds, processes := v.processes.set v.i p }
      (((if v.i > 1 then
          (fds ++ [lowestFree fds, lowestFree (lowestFree fds :: fds)]).filter
            (fun x => x != v.fdin)
        else fds ++ [lowestFree fds, lowestFree (lowestFree fds :: fds)])).filter
        (fun x => x != lowestFree (lowestFree fds :: fds))) := by
  have hr := lowestFree_not_mem fds
  have hw := lowestFree_not_mem (lowestFree fds :: fds)
  generalize lowestFree (lowestFree fds :: fds) = w at hw
  generalize hrdef : lowestFree fds = r at hr hw
  simp only [List.mem_cons, not_or] at hw
  obtain ⟨hwr, hwf⟩ := hw
  rcases h with ⟨hi, hfds⟩ | ⟨hi, hfds, hin⟩ | ⟨hi, hfds, hin⟩
  · subst hfds
    right; left
    refine ⟨by simp [hi], ?_, by simp [hrdef]⟩
    simp only [hi, gt_iff_lt, Nat.not_lt_zero, if_false, List.filter_append,
      filter_ne_self fds w hwf, hrdef]
    simp [List.filter_cons, Ne.symm hwr]
  · right; right
    subst hfds
    simp only [List.mem_append, List.mem_singleton, not_or] at hr hwf
    refine ⟨by simp [hi], ?_, ?_⟩
    · have : ¬ v.i > 1 := by omega
      simp only [this, if_false, List.filter_append, filter_ne_self F w hwf.1]
      simp [List.filter_cons, Ne.symm hwr, Ne.symm hwf.2]
    · simp only [List.mem_append, List.mem_singleton, not_or]
      exact hr
  · right; right
    subst hfds
    simp only [List.mem_append, List.mem_cons, List.mem_singleton, List.not_mem_nil, or_false,
      not_or] at hr hwf hin
    refine ⟨by simp; omega, ?_, ?_⟩
    · have : v.i > 1 := by omega
      simp only [this, if_true, List.filter_append, filter_ne_self F _ hin.1,
        filter_ne_self F w hwf.1]
      simp [List.filter_cons, Ne.symm hwr, Ne.symm hwf.2.1, Ne.symm hwf.2.2, Ne.symm hin.2,
        hr.2.2, hwf.2.2]
    · simp only [List.mem_append, List.mem_singleton, not_or]
      exact ⟨hr.1, hr.2.1⟩

theorem pipeChain_step (pipeList : List CMD) (k : Nat) (v : PipeVars) (s : Shell) (p : Nat)
    (rest : List ForkRes) (hp : ∀ r ∈ s.pipeRes, r = Sys.ok)
    (hf : s.forkRes = ForkRes.child p :: rest) :
    ∃ s1, pipeChain pipeList (k + 1) v s =
        pipeChain pipeList k
          { i := v.i + 1, fdin := lowestFree s.fds, processes := v.processes.set v.i p } s1 ∧
      s1.forkRes = rest ∧ s1.waitRes = s.waitRes ∧ (∀ r ∈ s1.pipeRes, r = Sys.ok) ∧
      s1.fds = ((if v.i > 1 then
          (s.fds ++ [lowestFree s.fds, lowestFree (lowestFree s.fds :: s.fds)]).filter
            (fun x => x != v.fdin)
        else s.fds ++ [lowestFree s.fds, lowestFree (lowestFree s.fds :: s.fds)])).filter
        (fun x => x != lowestFree (lowestFree s.fds :: s.fds)) := by
  have hfork := Shell.fork_child
    { s with pipeRes := s.pipeRes.tail,
             fds := s.fds ++ [lowestFree s.fds, lowestFree (lowestFree s.fds :: s.fds)] }
    (.stage v.i (pipeList.getD v.i .null)) p rest hf
  simp only [pipeChain, Shell.pipe_ok s hp, hfork]
  refine ⟨_, rfl, ?_, ?_, ?_, ?_⟩
  · split <;> rfl
  · split <;> rfl
  · intro r hr
    apply hp
    split at hr <;> exact List.mem_of_mem_tail hr
  · split <;> rfl

theorem pipeChain_ok (pipeList : List CMD) (fr : List ForkRes) (F : List Nat) :
    ∀ (k : Nat) (ps : List Nat) (v : PipeVars) (s : Shell),
      ps.length = k →
      (∀ r ∈ s.pipeRes, r = Sys.ok) →
      s.forkRes = ps.map ForkRes.child ++ fr →
      v.i + k ≤ v.processes.length →
      chainFds F v s.fds →
      ∃ v' s', pipeChain pipeList k v s = .inr (v', s') ∧ v'.i = v.i + k ∧
        v'.processes = v.processes.take v.i ++ ps ++ v.processes.drop (v.i + k) ∧
        s'.forkRes = fr ∧ s'.waitRes = s.waitRes ∧ chainFds F v' s'.fds := by
  intro k
  induction k with
  | zero =>
    intro ps v s hps _ hf _ hfds
    have : ps = [] := List.length_eq_zero.mp hps
    subst this
    refine ⟨v, s, rfl, rfl, ?_, by simpa using hf, rfl, hfds⟩
    simp
  | succ k ih =>
    intro ps v s hps hp hf hlen hfds
    cases ps with
    | nil => simp at hps
    | cons p ps' =>
      simp only [List.length_cons, Nat.add_right_cancel_iff] at hps
      simp only [List.map_cons, List.cons_append] at hf
      obtain ⟨s1, hstep, hf1, hw1, hp1, hfd1⟩ := pipeChain_step pipeList k v s p _ hp hf
      obtain ⟨v', s', h1, h2, h3, h4, h5, h6⟩ := ih ps'
        { i := v.i + 1, fdin := lowestFree s.fds, processes := v.processes.set v.i p } s1
        hps hp1 hf1 (by simp only [List.length_set]; omega)
        (by rw [hfd1]; exact chainFds_step F v s.fds p hfds)
      refine ⟨v', s', by rw [hstep, h1], by simp only [h2]; omega, ?_, h4, by rw [h5, hw1], h6⟩
      rw [h3]
      have hi : v.i < v.processes.length := by omega
      have hA : (v.processes.take v.i).length = v.i := by simp; omega
      simp only [List.set_eq_take_append_cons_drop, hi, if_true]
      have e1 : (List.take v.i v.processes ++ p :: List.drop (v.i + 1) v.processes)
          = List.take v.i v.processes ++ [p] ++ List.drop (v.i + 1) v.processes := by simp
      rw [e1, splice_take _ [p] _ v.i 1 hA rfl, splice_drop _ [p] _ v.i 1 k hA rfl]
      simp [Nat.add_comm]

theorem lastNonZero_step (c st : Nat) (cs : List Nat) :
    (((c :: cs).filter (fun c => c ≠ 0)).getLast?).getD st =
      ((cs.filter (fun c => c ≠ 0)).getLast?).getD (if c ≠ 0 then c else st) := by
  by_cases hc : c = 0
  · simp [hc]
  · simp [hc, List.getLast?_cons]

theorem memberCodes_cons_mem (pids : List Nat) (pid : Nat) (raw : Int) (ws : List (Nat × Int))
    (hm : pids.contains pid = true) :
    memberCodes pids ((pid, raw) :: ws) = STATUS raw :: memberCodes pids ws := by
  simp only [memberCodes, List.filter_cons, hm, if_true, List.map_cons]

theorem memberCodes_cons_not (pids : List Nat) (pid : Nat) (raw : Int) (ws : List (Nat × Int))
    (hm : ¬ pids.contains pid = true) :
    memberCodes pids ((pid, raw) :: ws) = memberCodes pids ws := by
  simp only [memberCodes, List.filter_cons, hm]
  rfl

theorem pipeWait_status (size : Nat) (pids : List Nat) (wr : List WaitRes) :
    ∀ (ws : List (Nat × Int)) (i status : Nat) (s : Shell),
      i ≤ size →
      (ws.filter (fun w => pids.contains w.1)).length = size - i →
      (i < size ∨ s.status = toString status) →
      (pipeWait size pids (ws.map (fun w => WaitRes.reaped w.1 w.2) ++ wr) i status s).status =
        toString ((((memberCodes pids ws).filter (fun c => c ≠ 0)).getLast?).getD status) := by
  intro ws
  induction ws with
  | nil =>
    intro i status s hi hcount hst
    simp only [List.filter_nil, List.length_nil] at hcount
    have hi' : ¬ i < size := by omega
    have hs : s.status = toString status := by
      rcases hst with h | h
      · exact absurd h hi'
      · exact h
    simp only [List.map_nil, List.nil_append, memberCodes, List.filter_nil, List.getLast?_nil,
      Option.getD_none]
    cases wr with
    | nil => simpa [pipeWait] using hs
    | cons w rest => simpa [pipeWait, hi'] using hs
  | cons w ws ih =>
    intro i status s hi hcount hst
    obtain ⟨pid, raw⟩ := w
    by_cases hlt : i < size
    · by_cases hm : pids.contains pid = true
      · simp only [List.filter_cons, hm, if_true, List.length_cons] at hcount
        have := ih (i + 1) (if STATUS raw ≠ 0 then STATUS raw else status)
          { s with status := toString (if STATUS raw ≠ 0 then STATUS raw else status) }
          (by omega) (by omega) (Or.inr rfl)
        simp only [List.map_cons, List.cons_append, pipeWait, hlt, if_true, hm]
        refine this.trans ?_
        rw [memberCodes_cons_mem pids pid raw ws hm, lastNonZero_step]
      · simp only [List.filter_cons, hm, if_false] at hcount
        have := ih i status
          { s with
            err := s.err ++ "Completed: " ++ toString pid ++ " (" ++ toString status ++ ")\n",
            zombies := s.zombies - 1 }
          hi (by simpa using hcount) (Or.inl hlt)
        simp only [List.map_cons, List.cons_append, pipeWait, hlt, if_true, hm]
        refine this.trans ?_
        rw [memberCodes_cons_not pids pid raw ws hm]
    · have hz : (List.filter (fun w => pids.contains w.1) ((pid, raw) :: ws)).length = 0 := by
        omega
      have hnil : List.filter (fun w => pids.contains w.1) ((pid, raw) :: ws) = [] :=
        List.length_eq_zero.mp hz
      have hs : s.status = toString status := by
        rcases hst with h | h
        · exact absurd h hlt
        · exact h
      simp only [List.map_cons, List.cons_append, pipeWait, hlt, if_false, memberCodes, hnil,
        List.map_nil, List.filter_nil, List.getLast?_nil, Option.getD_none]
      exact hs

theorem toDigitsCore_length_pos (b : Nat) : ∀ (f m : Nat) (ds : List Char), 0 < f →
    ds.length + 1 ≤ (Nat.toDigitsCore b f m ds).length := by
  intro f
  induction f with
  | zero => intro m ds h; omega
  | succ f ih =>
    intro m ds _
    simp only [Nat.toDigitsCore]
    split
    · simp
    · by_cases hf : 0 < f
      · have := ih (m / b) (Nat.digitChar (m % b) :: ds) hf
        simp only [List.length_cons] at this
        omega
      · have : f = 0 := by omega
        subst this
        simp [Nat.toDigitsCore]

theorem toString_ne_zero (e : Nat) (he : e ≠ 0) : toString e ≠ "0" := by
  intro h
  have h1 : Nat.toDigits 10 e = ['0'] := by
    have : (Nat.toDigits 10 e).asString = "0" := h
    have := congrArg String.data this
    simpa [List.asString] using this
  unfold Nat.toDigits at h1
  simp only [Nat.toDigitsCore] at h1
  split at h1
  · rename_i hz
    have hlt : e < 10 := by omega
    simp only [List.cons.injEq, and_true] at h1
    interval_cases e <;> first | exact absurd rfl he | exact absurd h1 (by decide)
  · rename_i hz
    have hpos : 0 < e := by omega
    have := toDigitsCore_length_pos 10 e (e / 10) [Nat.digitChar (e % 10)] hpos
    rw [h1] at this
    simp at this

theorem Shell.getcwd_ok (s : Shell) (h : ∀ r ∈ s.getcwdRes, r = Sys.ok) :
    s.getcwd = (.ok s.cwd, { s with getcwdRes := s.getcwdRes.tail }) := by
  unfold Shell.getcwd
  split
  · rename_i e rest heq
    have := h (.fail e) (by rw [heq]; simp)
    cases this
  · rfl

theorem Shell.chdir_fail (resolve : String → String → String) (s : Shell) (path : String)
    (e : Nat) (rest : List Sys) (h : s.chdirRes = .fail e :: rest) :
    s.chdir resolve path = (.fail e, { s with chdirRes := rest }) := by
  unfold Shell.chdir
  rw [h]

theorem parentScan_isSome (pwd : List Char) (habs : pwd[0]? = some '/') :
    ∀ (fuel parentLen : Nat), parentLen + 1 ≤ pwd.length → pwd.length - parentLen ≤ fuel →
      ∃ r, parentScan pwd fuel parentLen = some r ∧ r + 1 ≤ pwd.length := by
  intro fuel
  induction fuel with
  | zero => intro parentLen h1 h2; omega
  | succ fuel ih =>
    intro parentLen h1 h2
    have hn : ¬ pwd.length < 1 + parentLen := by omega
    simp only [parentScan, hn, if_false]
    split
    · rename_i hc
      have hidx : pwd.length - 1 - parentLen ≠ 0 := by
        intro h0
        rw [h0] at hc
        exact hc habs
      exact ih (parentLen + 1) (by omega) (by omega)
    · exact ⟨parentLen, rfl, h1⟩

theorem cdParentPath_isSome (pwd arg : String) (habs : isAbsolute pwd = true)
    (hroot : pwd ≠ "/") : ∃ directory, cdParentPath pwd arg = some directory := by
  simp only [isAbsolute, decide_eq_true_eq] at habs
  have hlen : 2 ≤ pwd.data.length := by
    rcases pwd with ⟨data⟩
    match data, habs with
    | [c], h =>
      simp at h
      subst h
      exact absurd rfl hroot
    | _ :: _ :: _, _ => simp
  have hne : ¬ pwd.data.length = 0 := by omega
  obtain ⟨r, hr, _⟩ := parentScan_isSome pwd.data habs (pwd.data.length + 1)
    (if pwd.data[pwd.data.length - 1]? = some '/' then 1 else 0)
    (by split <;> omega) (by omega)
  simp only [cdParentPath, hne, if_false, hr]
  exact ⟨_, rfl⟩

theorem cdJoinPath_isSome (pwd rest : String) (habs : isAbsolute pwd = true) :
    ∃ directory, cdJoinPath pwd rest = some directory := by
  simp only [isAbsolute, decide_eq_true_eq] at habs
  have hne : ¬ pwd.data.length = 0 := by
    intro h
    have : pwd.data = [] := List.length_eq_zero.mp h
    rw [this] at habs
    simp at habs
  simp only [cdJoinPath, hne, if_false]
  split <;> exact ⟨_, rfl⟩

theorem cdFromCwd_reaches_chdir (resolve : String → String → String)
    (mk : String → Option String) (s : Shell) (hg : ∀ r ∈ s.getcwdRes, r = Sys.ok)
    (hmk : ∃ directory, mk s.cwd = some directory) :
    ∃ directory, cdFromCwd resolve mk s =
      .returned (cdChdir resolve directory { s with getcwdRes := s.getcwdRes.tail }) := by
  obtain ⟨directory, hd⟩ := hmk
  exact ⟨directory, by simp only [cdFromCwd, Shell.getcwd_ok s hg, hd]⟩

theorem executeCD_reaches_chdir (resolve : String → String → String) (info : CmdInfo)
    (name d : String) (s : Shell) (hargv : info.argv = [name, d]) (hdot : d ≠ ".")
    (hg : ∀ r ∈ s.getcwdRes, r = Sys.ok) (habs : isAbsolute s.cwd = true)
    (hroot : startsDotDot d = true → s.cwd ≠ "/") :
    ∃ directory s', executeCD resolve info s = .returned (cdChdir resolve directory s') ∧
      (s' = s ∨ s' = { s with getcwdRes := s.getcwdRes.tail }) := by
  have h1 : info.argv[1]? = some d := by rw [hargv]; rfl
  have h2 : (info.argv[2]?).isSome = false := by rw [hargv]; rfl
  simp only [executeCD, h1, h2, Bool.false_eq_true, if_false]
  split_ifs with ha hb hc hd
  · exact ⟨d, s, rfl, Or.inl rfl⟩
  · exfalso
    apply hdot
    rcases d with ⟨data⟩
    match data, hb with
    | [c], h =>
      simp at h
      subst h
      rfl
  · obtain ⟨directory, h⟩ := cdFromCwd_reaches_chdir resolve
      (fun pwd => cdJoinPath pwd (String.mk (d.data.drop 2))) s hg
      (cdJoinPath_isSome _ _ habs)
    exact ⟨directory, _, h, Or.inr rfl⟩
  · have hdd : startsDotDot d = true := by simp [startsDotDot, hd.1, hd.2]
    obtain ⟨directory, h⟩ := cdFromCwd_reaches_chdir resolve
      (fun pwd => cdParentPath pwd d) s hg
      (cdParentPath_isSome _ _ habs (hroot hdd))
    exact ⟨directory, _, h, Or.inr rfl⟩
  · obtain ⟨directory, h⟩ := cdFromCwd_reaches_chdir resolve
      (fun pwd => cdJoinPath pwd d) s hg
      (cdJoinPath_isSome _ _ habs)
    exact ⟨directory, _, h, Or.inr rfl⟩

theorem cdChdir_fail (resolve : String → String → String) (directory : String) (s : Shell)
    (e : Nat) (rest : List Sys) (h : s.chdirRes = .fail e :: rest) :
    (cdChdir resolve directory s).status = toString e ∧
    (cdChdir resolve directory s).cwd = s.cwd ∧
    (cdChdir resolve directory s).out = s.out ∧
    (cdChdir resolve directory s).directoryStack = s.directoryStack := by
  simp only [cdChdir, Shell.chdir_fail resolve s directory e rest h, errorStatus,
    Bool.false_eq_true, if_false, and_self]

theorem take_set_self {α : Type} (l : List α) (n : Nat) (a : α) :
    (l.set n a).take n = l.take n := by
  induction l generalizing n with
  | nil => simp
  | cons x xs ih =>
    cases n with
    | zero => simp
    | succ n => simp [List.set, ih]

theorem stackAlloc_ok (s : Shell) (h : s.stackOk = true) :
    (stackAlloc s.directoryStack).ok = true ∧
    (stackAlloc s.directoryStack).elements.take (stackAlloc s.directoryStack).size
      = s.stackEntries := by
  unfold Shell.stackOk at h
  unfold Shell.stackEntries stackAlloc
  cases hst : s.directoryStack with
  | none => simp [charStack.ok, STACK_INIT_SIZE]
  | some ds =>
    rw [hst] at h
    exact ⟨h, rfl⟩

theorem stackGrow_ok (ds : charStack) (h : ds.ok = true) :
    (stackGrow ds).size = ds.size ∧
    (stackGrow ds).size < (stackGrow ds).elements.length ∧
    (stackGrow ds).elements.length = (stackGrow ds).capacity ∧
    (stackGrow ds).elements.take ds.size = ds.elements.take ds.size ∧
    0 < (stackGrow ds).capacity := by
  simp only [charStack.ok, Bool.and_eq_true, decide_eq_true_eq] at h
  obtain ⟨⟨h1, h2⟩, h3⟩ := h
  unfold stackGrow
  split
  · rename_i hge
    refine ⟨rfl, ?_, ?_, ?_, by simp only; omega⟩
    · simp only [List.length_take, List.length_append, List.length_replicate]
      omega
    · simp only [List.length_take, List.length_append, List.length_replicate]
      omega
    · simp only [List.take_take]
      rw [Nat.min_eq_left (by omega)]
      rw [List.take_append_of_le_length (by omega)]
  · refine ⟨rfl, by omega, h2, rfl, h3⟩

theorem pipeChain_zombies (pipeList : List CMD) :
    ∀ (k : Nat) (v : PipeVars) (s : Shell),
      match pipeChain pipeList k v s with
      | .inl s' => s'.zombies = s.zombies
      | .inr (_, s') => s'.zombies = s.zombies := by
  intro k
  induction k with
  | zero => intro v s; rfl
  | succ k ih =>
    intro v s
    simp only [pipeChain]
    cases hp : s.pipe with
    | mk res s1 =>
      have h1 : s1.zombies = s.zombies := by
        unfold Shell.pipe at hp
        split at hp <;> (cases hp; rfl)
      cases res with
      | error e => exact h1
      | ok fds =>
        obtain ⟨fd0, fd1⟩ := fds
        simp only
        cases hf : s1.fork (.stage v.i (pipeList.getD v.i .null)) with
        | mk fres s2 =>
          have h2 : s2.zombies = s1.zombies := by
            unfold Shell.fork at hf
            split at hf <;> (cases hf; rfl)
          cases fres with
          | fail e => exact h2.trans h1
          | child pid =>
            simp only
            have h3 := ih { i := v.i + 1, fdin := fd0, processes := v.processes.set v.i pid }
              ((if v.i > 1 then s2.close v.fdin else s2).close fd1)
            have h4 : ((if v.i > 1 then s2.close v.fdin else s2).close fd1).zombies
                = s.zombies := by
              rw [← h1, ← h2]
              split <;> rfl
            split at h3
            · exact h3.trans h4
            · exact h3.trans h4

theorem executePipe_forks (t : CMD) (s : Shell) (pids : List Nat) (fr : List ForkRes)
    (ht : isPipeTree t = true)
    (hpipe : ∀ r ∈ s.pipeRes, r = Sys.ok)
    (hfork : s.forkRes = pids.map ForkRes.child ++ fr)
    (hN : pids.length = (pipeStages t).length) :
    ∃ s3, executePipe t s =
        .returned (pipeWait (pipeStages t).length pids s3.waitRes 0 0 s3) ∧
      s3.waitRes = s.waitRes ∧ s3.fds = s.fds ++ [lowestFree s.fds] ∧
      s3.zombies = s.zombies := by
  obtain ⟨hcount, hN2, hflat⟩ := isPipeTree_flatten t ht
  generalize (pipeStages t).length = N at hN hcount hN2 hflat
  have hne : pids ≠ [] := by
    intro h
    rw [h] at hN
    simp at hN
    omega
  obtain ⟨ps, plast, hpids⟩ : ∃ ps plast, pids = ps ++ [plast] :=
    ⟨pids.dropLast, pids.getLast hne, (List.dropLast_append_getLast hne).symm⟩
  have hps : ps.length = N - 1 := by
    rw [hpids] at hN
    simp at hN
    omega
  have hfork' : s.forkRes = ps.map ForkRes.child ++ (ForkRes.child plast :: fr) := by
    rw [hfork, hpids]
    simp
  obtain ⟨v', s1, hchain, hvi, hproc, hf1, hw1, hfds⟩ := pipeChain_ok (pipeStages t)
    (ForkRes.child plast :: fr) s.fds (N - 1) ps
    { i := 0, fdin := 0, processes := List.replicate N 0 } s hps hpipe hfork'
    (by simp) (Or.inl ⟨rfl, rfl⟩)
  have hforkLast := Shell.fork_child s1
    (.stage (N - 1) ((pipeStages t).getD (N - 1) .null)) plast fr hf1
  have hprocs : v'.processes.set (N - 1) plast = pids := by
    rw [hproc, hpids]
    simp only [List.take_zero, List.nil_append, Nat.zero_add, List.drop_replicate]
    have h1 : N - (N - 1) = 1 := by omega
    rw [h1, ← hps]
    simp
  have hz1 : s1.zombies = s.zombies := by
    have := pipeChain_zombies (pipeStages t) (N - 1)
      { i := 0, fdin := 0, processes := List.replicate N 0 } s
    rw [hchain] at this
    exact this
  simp only [executePipe, hcount, hflat, hchain, hforkLast, hprocs]
  refine ⟨_, rfl, ?_, ?_, by split <;> exact hz1⟩
  · split
    · simpa [Shell.close] using hw1
    · simpa using hw1
  · simp only at hvi
    rcases hfds with ⟨hi, _⟩ | ⟨hi, hfd, _⟩ | ⟨hi, hfd, hin⟩
    · omega
    · have : ¬ v'.i > 1 := by omega
      simp only [this, if_false]
      exact hfd
    · have : v'.i > 1 := by omega
      simp only [this, if_true, Shell.close, hfd]
      simp only [List.mem_append, List.mem_singleton, not_or] at hin
      have e : s.fds ++ [lowestFree s.fds, v'.fdin] = (s.fds ++ [lowestFree s.fds]) ++ [v'.fdin] := by
        simp
      rw [e, List.filter_append, filter_ne_self _ _ (by simpa using hin)]
      simp

theorem pipeWait_fds (size : Nat) (processes : List Nat) :
    ∀ (ws : List WaitRes) (i status : Nat) (s : Shell),
      (pipeWait size processes ws i status s).fds = s.fds := by
  intro ws
  induction ws with
  | nil => intro i status s; rfl
  | cons w ws ih =>
    intro i status s
    simp only [pipeWait]
    split
    · cases w with
      | fail => exact ih _ _ _
      | reaped pid raw =>
        simp only
        split
        · exact (ih _ _ _).trans rfl
        · exact (ih _ _ _).trans rfl
    · rfl

/-- Supporting fact for C1: for every pipeline of `N ≥ 2` stages whose `pipe`
and `fork` calls all succeed, `executePipe` returns with exactly one more
descriptor open than before: the read end of the first pipe. -/
theorem executePipe_fds_after (t : CMD) (s : Shell) (pids : List Nat) (fr : List ForkRes)
    (ht : isPipeTree t = true)
    (hpipe : ∀ r ∈ s.pipeRes, r = Sys.ok)
    (hfork : s.forkRes = pids.map ForkRes.child ++ fr)
    (hN : pids.length = (pipeStages t).length) :
    ∃ s', executePipe t s = .returned s' ∧ s'.fds = s.fds ++ [lowestFree s.fds] ∧
      lowestFree s.fds ∉ s.fds := by
  obtain ⟨s3, hrun, _, hfds, _⟩ := executePipe_forks t s pids fr ht hpipe hfork hN
  exact ⟨_, hrun, by rw [pipeWait_fds, hfds], lowestFree_not_mem s.fds⟩

theorem reapZombies_frame : ∀ (polls : List (Option WaitRes)) (s : Shell),
    (reapZombies polls s).cwd = s.cwd ∧
    (reapZombies polls s).directoryStack = s.directoryStack ∧
    (reapZombies polls s).chdirRes = s.chdirRes ∧
    (reapZombies polls s).getcwdRes = s.getcwdRes := by
  intro polls
  induction polls with
  | nil => intro s; exact ⟨rfl, rfl, rfl, rfl⟩
  | cons w rest ih =>
    intro s
    match w with
    | none => exact ⟨rfl, rfl, rfl, rfl⟩
    | some .fail => exact ⟨rfl, rfl, rfl, rfl⟩
    | some (.reaped pid raw) =>
      simp only [reapZombies]
      split
      · exact ih _
      · exact ⟨rfl, rfl, rfl, rfl⟩

theorem Shell.chdir_ok (resolve : String → String → String) (s : Shell) (path : String)
    (h : ∀ r ∈ s.chdirRes, r = Sys.ok) :
    s.chdir resolve path =
      (.ok, { s with chdirRes := s.chdirRes.tail, cwd := resolve s.cwd path }) := by
  unfold Shell.chdir
  split
  · rename_i e rest heq
    have := h (.fail e) (by rw [heq]; simp)
    cases this
  · rfl

theorem cdChdir_ok (resolve : String → String → String) (directory : String) (s : Shell)
    (h : ∀ r ∈ s.chdirRes, r = Sys.ok) :
    cdChdir resolve directory s =
      { s with chdirRes := s.chdirRes.tail, cwd := resolve s.cwd directory, status := "0" } := by
  simp only [cdChdir, Shell.chdir_ok resolve s directory h]

theorem executeCD_cases (resolve : String → String → String) (info : CmdInfo)
    (name d : String) (s : Shell) (hargv : info.argv = [name, d])
    (hg : ∀ r ∈ s.getcwdRes, r = Sys.ok) :
    executeCD resolve info s = .fault ∨
    executeCD resolve info s = .returned { s with status := "0" } ∨
    ∃ directory s', executeCD resolve info s = .returned (cdChdir resolve directory s') ∧
      (s' = s ∨ s' = { s with getcwdRes := s.getcwdRes.tail }) := by
  have h1 : info.argv[1]? = some d := by rw [hargv]; rfl
  have h2 : (info.argv[2]?).isSome = false := by rw [hargv]; rfl
  have hfrom : ∀ mk : String → Option String,
      cdFromCwd resolve mk s = .fault ∨
      ∃ directory, cdFromCwd resolve mk s =
        .returned (cdChdir resolve directory { s with getcwdRes := s.getcwdRes.tail }) := by
    intro mk
    cases hmk : mk s.cwd with
    | none => left; simp only [cdFromCwd, Shell.getcwd_ok s hg, hmk]
    | some directory => right; exact cdFromCwd_reaches_chdir resolve mk s hg ⟨directory, hmk⟩
  simp only [executeCD, h1, h2, Bool.false_eq_true, if_false]
  split_ifs with ha hb hc hd
  · exact Or.inr (Or.inr ⟨d, s, rfl, Or.inl rfl⟩)
  · exact Or.inr (Or.inl rfl)
  · rcases hfrom (fun pwd => cdJoinPath pwd (String.mk (d.data.drop 2))) with h | ⟨dir, h⟩
    · exact Or.inl h
    · exact Or.inr (Or.inr ⟨dir, _, h, Or.inr rfl⟩)
  · rcases hfrom (fun pwd => cdParentPath pwd d) with h | ⟨dir, h⟩
    · exact Or.inl h
    · exact Or.inr (Or.inr ⟨dir, _, h, Or.inr rfl⟩)
  · rcases hfrom (fun pwd => cdJoinPath pwd d) with h | ⟨dir, h⟩
    · exact Or.inl h
    · exact Or.inr (Or.inr ⟨dir, _, h, Or.inr rfl⟩)

theorem mem_tail_ok (l : List Sys) (h : ∀ r ∈ l, r = Sys.ok) : ∀ r ∈ l.tail, r = Sys.ok :=
  fun r hr => h r (List.mem_of_mem_tail hr)

theorem executeCD_success (resolve : String → String → String)
    (hK : ∀ c p, canonical resolve (resolve c p)) (info : CmdInfo) (name d : String)
    (s s2 : Shell) (hargv : info.argv = [name, d]) (hcanon : canonical resolve s.cwd)
    (hcalls : dirCallsSucceed s) (hret : executeCD resolve info s = .returned s2) :
    s2.status = "0" ∧ s2.directoryStack = s.directoryStack ∧ canonical resolve s2.cwd ∧
      dirCallsSucceed s2 := by
  rcases executeCD_cases resolve info name d s hargv hcalls.2 with h | h | ⟨dir, s', h, hs'⟩
  · rw [h] at hret
    cases hret
  · rw [h] at hret
    cases hret
    exact ⟨rfl, rfl, hcanon, hcalls⟩
  · rw [h] at hret
    cases hret
    have hc' : ∀ r ∈ s'.chdirRes, r = Sys.ok := by
      rcases hs' with rfl | rfl <;> exact hcalls.1
    have hg' : ∀ r ∈ s'.getcwdRes, r = Sys.ok := by
      rcases hs' with rfl | rfl
      · exact hcalls.2
      · exact mem_tail_ok _ hcalls.2
    rw [cdChdir_ok resolve dir s' hc']
    refine ⟨rfl, by rcases hs' with rfl | rfl <;> rfl, hK _ _, mem_tail_ok _ hc', hg'⟩

theorem take_succ_set {α : Type} (l : List α) (n : Nat) (a : α) (h : n < l.length) :
    (l.set n a).take (n + 1) = l.take n ++ [a] := by
  induction l generalizing n with
  | nil => simp at h
  | cons x xs ih =>
    cases n with
    | zero => simp
    | succ n =>
      simp only [List.length_cons, Nat.add_lt_add_iff_right] at h
      simp [List.set, ih n h]

theorem stackAlloc_size (s : Shell) : (stackAlloc s.directoryStack).size = s.stackSize := by
  unfold stackAlloc Shell.stackSize
  cases s.directoryStack <;> rfl

theorem executePushd_success (resolve : String → String → String)
    (hK : ∀ c p, canonical resolve (resolve c p)) (info : CmdInfo) (name d : String)
    (s s' : Shell) (hargv : info.argv = [name, d]) (hstack : s.stackOk = true)
    (hcanon : canonical resolve s.cwd) (hcalls : dirCallsSucceed s)
    (hret : executePushd resolve info s = .returned s') :
    s'.stackEntries = s.stackEntries ++ [s.cwd] ∧ s'.stackSize = s.stackSize + 1 ∧
      s'.stackOk = true ∧ canonical resolve s'.cwd ∧ dirCallsSucceed s' := by
  have h2 : (info.argv[2]?).isSome = false := by rw [hargv]; rfl
  obtain ⟨hok0, hent0⟩ := stackAlloc_ok s hstack
  obtain ⟨hsz, hlt, hlen, htake, hcap⟩ := stackGrow_ok _ hok0
  have key : ∀ sP s2 : Shell, executeCD resolve info sP = .returned s2 →
      sP.cwd = s.cwd → sP.chdirRes = s.chdirRes → sP.getcwdRes = s.getcwdRes.tail →
      s2.status = "0" ∧ s2.directoryStack = sP.directoryStack ∧ canonical resolve s2.cwd ∧
        dirCallsSucceed s2 := by
    intro sP s2 hcd e1 e2 e3
    exact executeCD_success resolve hK info name d sP s2 hargv (e1 ▸ hcanon)
      ⟨e2 ▸ hcalls.1, e3 ▸ mem_tail_ok _ hcalls.2⟩ hcd
  simp only [executePushd, h2, Bool.false_eq_true, if_false, Shell.getcwd_ok s hcalls.2, hlt,
    if_true] at hret
  cases hcd : executeCD resolve info
      { s with
        getcwdRes := s.getcwdRes.tail,
        directoryStack := some
          { stackGrow (stackAlloc s.directoryStack) with
            elements := (stackGrow (stackAlloc s.directoryStack)).elements.set
              (stackGrow (stackAlloc s.directoryStack)).size s.cwd,
            size := (stackGrow (stackAlloc s.directoryStack)).size + 1 } } with
  | returned s2 =>
    obtain ⟨hst, hds, hcan2, hcalls2⟩ := key _ s2 hcd rfl rfl rfl
    rw [hcd] at hret
    simp only [Outcome.andThen, hst, if_true, Shell.getcwd_ok s2 hcalls2.2] at hret
    cases hret
    refine ⟨?_, ?_, ?_, hcan2, hcalls2.1, mem_tail_ok _ hcalls2.2⟩
    · show Shell.stackEntries { s2 with getcwdRes := _, status := _, out := _ } = _
      unfold Shell.stackEntries
      simp only [hds]
      rw [take_succ_set _ _ _ hlt, hsz, htake, hent0]
      rfl
    · show Shell.stackSize { s2 with getcwdRes := _, status := _, out := _ } = _
      unfold Shell.stackSize
      simp only [hds]
      rw [hsz, stackAlloc_size]
      rfl
    · show Shell.stackOk { s2 with getcwdRes := _, status := _, out := _ } = _
      unfold Shell.stackOk
      simp only [hds, charStack.ok, List.length_set, Bool.and_eq_true, decide_eq_true_eq]
      omega
  | exited code s2 => rw [hcd] at hret; cases hret
  | fault => rw [hcd] at hret; cases hret
  | outOfFuel => rw [hcd] at hret; cases hret

theorem take_snoc_top {α : Type} (l es : List α) (top : α) (n : Nat) (hn : n ≤ l.length)
    (h : l.take n = es ++ [top]) :
    n = es.length + 1 ∧ l[n - 1]? = some top ∧ l.take (n - 1) = es := by
  have hlen : n = es.length + 1 := by
    have := congrArg List.length h
    simp only [List.length_take, List.length_append, List.length_singleton] at this
    omega
  refine ⟨hlen, ?_, ?_⟩
  · have h1 : (l.take n)[n - 1]? = l[n - 1]? := by
      rw [List.getElem?_take, if_pos (by omega)]
    rw [← h1, h, hlen]
    simp
  · have h2 : (l.take n).take (n - 1) = l.take (n - 1) := by
      rw [List.take_take, Nat.min_eq_left (by omega)]
    rw [← h2, h, hlen]
    simp

theorem executePopd_success (resolve : String → String → String) (info : CmdInfo)
    (name : String) (s : Shell) (es : List String) (top : String)
    (hargv : info.argv = [name]) (hstack : s.stackOk = true)
    (hent : s.stackEntries = es ++ [top]) (htop : canonical resolve top)
    (hcalls : dirCallsSucceed s) :
    ∃ s', executePopd resolve info s = .returned s' ∧ s'.cwd = top ∧
      s'.stackEntries = es ∧ s'.stackSize = s.stackSize - 1 ∧ s'.stackOk = true ∧
      dirCallsSucceed s' := by
  have h1 : (info.argv[1]?).isSome = false := by rw [hargv]; rfl
  unfold Shell.stackEntries at hent
  unfold Shell.stackOk at hstack
  cases hds : s.directoryStack with
  | none =>
    rw [hds] at hent
    simp at hent
  | some ds =>
    rw [hds] at hent hstack
    simp only [charStack.ok, Bool.and_eq_true, decide_eq_true_eq] at hstack hent
    obtain ⟨⟨hle, hlen⟩, hcap⟩ := hstack
    obtain ⟨hsz, hget, htake⟩ := take_snoc_top ds.elements es top ds.size (by omega) hent
    have hne : ¬ ds.size = 0 := by omega
    have hargv1 : ({ info with argv := info.argv.take 1 ++ [top] } : CmdInfo).argv
        = [name, top] := by
      simp [hargv]
    have habs : top.data[0]? = some '/' := by
      have := htop.1
      simpa [isAbsolute] using this
    have hcd : ∀ sP : Shell, executeCD resolve { info with argv := info.argv.take 1 ++ [top] } sP
        = .returned (cdChdir resolve top sP) := by
      intro sP
      simp [executeCD, hargv, habs]
    have hok := cdChdir_ok resolve top
      { s with directoryStack := some { ds with size := ds.size - 1 } } hcalls.1
    have hgo := Shell.getcwd_ok
      { s with directoryStack := some { ds with size := ds.size - 1 },
               chdirRes := s.chdirRes.tail, cwd := resolve s.cwd top, status := "0" } hcalls.2
    simp only [executePopd, h1, Bool.false_eq_true, if_false, hds, hne, hget, hcd,
      Outcome.andThen, hok, hgo]
    refine ⟨_, rfl, htop.2 _, ?_, ?_, ?_, mem_tail_ok _ hcalls.1, mem_tail_ok _ hcalls.2⟩
    · exact htake
    · show ds.size - 1 = Shell.stackSize s - 1
      unfold Shell.stackSize
      rw [hds]
    · show charStack.ok { ds with size := ds.size - 1 } = true
      simp only [charStack.ok, Bool.and_eq_true, decide_eq_true_eq]
      omega

theorem runAll_append (resolve : String → String → String) (xs ys : List CMD) (s : Shell) :
    runAll resolve (xs ++ ys) s = (runAll resolve xs s).andThen (runAll resolve ys) := by
  induction xs generalizing s with
  | nil => rfl
  | cons x xs ih =>
    simp only [List.cons_append, runAll]
    cases process resolve 1 x s with
    | returned s1 => exact ih s1
    | exited code s1 => rfl
    | fault => rfl
    | outOfFuel => rfl

theorem process_pushd (resolve : String → String → String) (d : String) (s : Shell) :
    ∃ sR, process resolve 1 (.simple ["pushd", d]) s =
        executePushd resolve (CmdInfo.plain .SIMPLE ["pushd", d]) sR ∧
      sR.cwd = s.cwd ∧ sR.directoryStack = s.directoryStack ∧ sR.chdirRes = s.chdirRes ∧
      sR.getcwdRes = s.getcwdRes := by
  obtain ⟨h1, h2, h3, h4⟩ := reapZombies_frame s.pollRes
    { s with trace := s.trace ++ [.enter (.simple ["pushd", d])] }
  refine ⟨_, ?_, h1, h2, h3, h4⟩
  simp [process, CMD.simple, CmdInfo.plain]

theorem process_popd (resolve : String → String → String) (s : Shell) :
    ∃ sR, process resolve 1 (.simple ["popd"]) s =
        executePopd resolve (CmdInfo.plain .SIMPLE ["popd"]) sR ∧
      sR.cwd = s.cwd ∧ sR.directoryStack = s.directoryStack ∧ sR.chdirRes = s.chdirRes ∧
      sR.getcwdRes = s.getcwdRes := by
  obtain ⟨h1, h2, h3, h4⟩ := reapZombies_frame s.pollRes
    { s with trace := s.trace ++ [.enter (.simple ["popd"])] }
  refine ⟨_, ?_, h1, h2, h3, h4⟩
  simp [process, CMD.simple, CmdInfo.plain]

theorem stack_congr (a b : Shell) (h : a.directoryStack = b.directoryStack) :
    a.stackEntries = b.stackEntries ∧ a.stackSize = b.stackSize ∧ a.stackOk = b.stackOk := by
  unfold Shell.stackEntries Shell.stackSize Shell.stackOk
  rw [h]
  exact ⟨rfl, rfl, rfl⟩

/-- Supporting fact for C6: for a kernel whose working directories are
canonical, from any well-shaped directory stack and canonical working
directory, if a sequence of one-argument `pushd` commands completes with every
`chdir` and `getcwd` succeeding, then as many `popd` commands complete and
bring the shell back to the working directory and the stack it started
from. -/
theorem pushd_popd_round_trip (resolve : String → String → String)
    (hK : ∀ c p, canonical resolve (resolve c p)) :
    ∀ (ds : List String) (s s1 : Shell),
      s.stackOk = true → canonical resolve s.cwd → dirCallsSucceed s →
      runAll resolve (ds.map (fun d => CMD.simple ["pushd", d])) s = .returned s1 →
      ∃ s2, runAll resolve (List.replicate ds.length (CMD.simple ["popd"])) s1 = .returned s2 ∧
        s2.cwd = s.cwd ∧ s2.stackEntries = s.stackEntries ∧ s2.stackSize = s.stackSize ∧
        s2.stackOk = true ∧ dirCallsSucceed s2 := by
  intro ds
  induction ds with
  | nil =>
    intro s s1 hok _ hcalls hrun
    simp only [List.map_nil, runAll, Outcome.returned.injEq] at hrun
    subst hrun
    exact ⟨s, rfl, rfl, rfl, rfl, hok, hcalls⟩
  | cons d ds ih =>
    intro s s1 hok hcanon hcalls hrun
    simp only [List.map_cons, runAll] at hrun
    obtain ⟨sR, hproc, e1, e2, e3, e4⟩ := process_pushd resolve d s
    obtain ⟨c1, c2, c3⟩ := stack_congr sR s e2
    cases hp : process resolve 1 (.simple ["pushd", d]) s with
    | returned s' =>
      rw [hp] at hrun
      simp only [Outcome.andThen] at hrun
      rw [hproc] at hp
      obtain ⟨p1, p2, p3, p4, p5⟩ := executePushd_success resolve hK
        (CmdInfo.plain .SIMPLE ["pushd", d]) "pushd" d sR s' rfl (c3 ▸ hok) (e1 ▸ hcanon)
        ⟨e3 ▸ hcalls.1, e4 ▸ hcalls.2⟩ hp
      obtain ⟨s2', q1, q2, q3, q4, q5, q6⟩ := ih s' s1 p3 p4 p5 hrun
      obtain ⟨sR', hproc', f1, f2, f3, f4⟩ := process_popd resolve s2'
      obtain ⟨g1, g2, g3⟩ := stack_congr sR' s2' f2
      obtain ⟨s3, r1, r2, r3, r4, r5, r6⟩ := executePopd_success resolve
        (CmdInfo.plain .SIMPLE ["popd"]) "popd" sR' s.stackEntries s.cwd rfl (g3 ▸ q5)
        (by rw [g1, q3, p1, c1, e1]) hcanon ⟨f3 ▸ q6.1, f4 ▸ q6.2⟩
      refine ⟨s3, ?_, r2, r3, ?_, r5, r6⟩
      · rw [List.length_cons, List.replicate_succ', runAll_append, q1]
        simp only [Outcome.andThen, runAll, hproc', r1]
      · rw [r4, g2, q4, p2, c2]
        omega
    | exited code s' => rw [hp] at hrun; cases hrun
    | fault => rw [hp] at hrun; cases hrun
    | outOfFuel => rw [hp] at hrun; cases hrun

theorem flatKernel_canonical (c p : String) : canonical flatKernel (flatKernel c p) := by
  unfold canonical flatKernel
  by_cases h : isAbsolute p = true
  · simp [h]
  · simp only [h, Bool.false_eq_true, if_false]
    exact ⟨by decide, fun _ => rfl⟩

/-- The round trip of `pushd_popd_round_trip` at five `pushd` commands run
from `/w` on an unallocated stack: the five `popd` commands complete and
leave the shell in `/w` with no live stack entry. -/
theorem pushd_popd_round_trip_five :
    ∃ s1 s2,
      runAll flatKernel
        ([ "/a", "b", "./c", "..", "/e" ].map (fun d => CMD.simple ["pushd", d]))
        (freshShell "/w") = .returned s1 ∧
      runAll flatKernel (List.replicate 5 (CMD.simple ["popd"])) s1 = .returned s2 ∧
      s2.cwd = "/w" ∧ s2.stackSize = 0 := by
  have hrun : ∃ s1, runAll flatKernel
      ([ "/a", "b", "./c", "..", "/e" ].map (fun d => CMD.simple ["pushd", d]))
      (freshShell "/w") = .returned s1 := ⟨_, rfl⟩
  obtain ⟨s1, h1⟩ := hrun
  obtain ⟨s2, h2, h3, _, h5, _, _⟩ := pushd_popd_round_trip flatKernel flatKernel_canonical
    [ "/a", "b", "./c", "..", "/e" ] (freshShell "/w") s1 (by decide)
    ⟨by decide, fun _ => rfl⟩ ⟨by simp [freshShell], by simp [freshShell]⟩ h1
  exact ⟨s1, s2, h1, h2, h3, h5⟩

theorem parentScan_component (P C : List Char) (hC : '/' ∉ C) :
    ∀ (j fuel : Nat), j ≤ C.length → j + 1 ≤ fuel →
      parentScan (P ++ '/' :: C) fuel (C.length - j) = some C.length := by
  intro j
  induction j with
  | zero =>
    intro fuel _ hf
    obtain ⟨f, rfl⟩ : ∃ f, fuel = f + 1 := ⟨fuel - 1, by omega⟩
    have hn : ¬ (P ++ '/' :: C).length < 1 + C.length := by simp; omega
    have hidx : (P ++ '/' :: C).length - 1 - C.length = P.length := by simp
    have hget : (P ++ '/' :: C)[P.length]? = some '/' := by
      rw [List.getElem?_append_right (Nat.le_refl _), Nat.sub_self]
      simp
    simp only [Nat.sub_zero, parentScan, hn, if_false, hidx, hget, ne_eq, not_true_eq_false]
  | succ j ih =>
    intro fuel hj hf
    obtain ⟨f, rfl⟩ : ∃ f, fuel = f + 1 := ⟨fuel - 1, by omega⟩
    have hn : ¬ (P ++ '/' :: C).length < 1 + (C.length - (j + 1)) := by simp; omega
    have hidx : (P ++ '/' :: C).length - 1 - (C.length - (j + 1)) = P.length + 1 + j := by
      simp; omega
    have hget : (P ++ '/' :: C)[P.length + 1 + j]? = C[j]? := by
      rw [List.getElem?_append_right (by omega)]
      have : P.length + 1 + j - P.length = j + 1 := by omega
      rw [this, List.getElem?_cons_succ]
    have hne : C[j]? ≠ some '/' := by
      intro h
      exact hC (List.getElem?_mem h)
    have hstep : C.length - (j + 1) + 1 = C.length - j := by omega
    simp only [parentScan, hn, if_false, hidx, hget, hne, ne_eq, not_false_eq_true, if_true,
      hstep]
    exact ih f (by omega) (by omega)

/-- Supporting fact for C9: when the working directory is `P/C` with `C` a
non-empty last component, the path `executeCD` builds for `..` followed by a
suffix is `P` followed by the suffix.  For a working directory with one
component, `P` is empty and the root slash is lost. -/
theorem cdParentPath_of_components (P C : List Char) (arg : String) (hC : '/' ∉ C)
    (hne : C ≠ []) :
    cdParentPath (String.mk (P ++ '/' :: C)) arg =
      some (String.mk (P ++ (if arg.data.length > 2 then arg.data.drop 2 else []))) := by
  have hlen : ¬ (P ++ '/' :: C).length = 0 := by simp
  have hlast : (P ++ '/' :: C)[(P ++ '/' :: C).length - 1]? ≠ some '/' := by
    intro h
    have hmem : '/' ∈ C := by
      have hi : (P ++ '/' :: C).length - 1 = P.length + 1 + (C.length - 1) := by
        have := List.length_pos.mpr hne
        simp; omega
      rw [hi, List.getElem?_append_right (by omega)] at h
      have : P.length + 1 + (C.length - 1) - P.length = (C.length - 1) + 1 := by omega
      rw [this, List.getElem?_cons_succ] at h
      exact List.getElem?_mem h
    exact hC hmem
  have hscan := parentScan_component P C hC C.length ((P ++ '/' :: C).length + 1)
    (Nat.le_refl _) (by simp; omega)
  rw [Nat.sub_self] at hscan
  have hcut : (P ++ '/' :: C).length - (C.length + 1) = P.length := by simp
  simp only [cdParentPath, hlen, if_false, hlast, hscan, hcut]
  simp

/-- Supporting fact for C8: with a second argument present `executePushd`
reports the usage error, sets `?` to "1" and changes nothing else. -/
theorem executePushd_usage (resolve : String → String → String) (info : CmdInfo) (s : Shell)
    (h : (info.argv[2]?).isSome = true) :
    executePushd resolve info s =
      .returned { s with err := s.err ++ "usage: pushd <dirName>\n", status := "1" } := by
  simp only [executePushd, h, if_true]

theorem exitsOnlyWithOne_returned (s : Shell) : exitsOnlyWithOne (.returned s) := by
  intro code s' h
  cases h

theorem exitsOnlyWithOne_fault : exitsOnlyWithOne .fault := by
  intro code s' h
  cases h

theorem exitsOnlyWithOne_andThen (o : Outcome) (k : Shell → Outcome)
    (ho : exitsOnlyWithOne o) (hk : ∀ s, exitsOnlyWithOne (k s)) :
    exitsOnlyWithOne (o.andThen k) := by
  cases o with
  | returned s => exact hk s
  | exited code s => exact ho
  | fault => exact exitsOnlyWithOne_fault
  | outOfFuel =>
    intro code s' h
    cases h

theorem cdFromCwd_exits (resolve : String → String → String) (mk : String → Option String)
    (s : Shell) : exitsOnlyWithOne (cdFromCwd resolve mk s) := by
  unfold cdFromCwd
  split
  · exact exitsOnlyWithOne_returned _
  · split
    · exact exitsOnlyWithOne_fault
    · exact exitsOnlyWithOne_returned _

theorem executeCD_exits (resolve : String → String → String) (info : CmdInfo) (s : Shell) :
    exitsOnlyWithOne (executeCD resolve info s) := by
  unfold executeCD
  split
  · split_ifs
    · exact exitsOnlyWithOne_returned _
    · exact exitsOnlyWithOne_returned _
    · exact exitsOnlyWithOne_returned _
    · exact cdFromCwd_exits _ _ _
    · exact cdFromCwd_exits _ _ _
    · exact cdFromCwd_exits _ _ _
  · split <;> exact exitsOnlyWithOne_returned _

theorem executePushd_exits (resolve : String → String → String) (info : CmdInfo) (s : Shell) :
    exitsOnlyWithOne (executePushd resolve info s) := by
  unfold executePushd
  split
  · exact exitsOnlyWithOne_returned _
  · simp only
    split
    · intro code s' h
      cases h
      rfl
    · split
      · apply exitsOnlyWithOne_andThen _ _ (executeCD_exits _ _ _)
        intro s2
        split
        · split <;> exact exitsOnlyWithOne_returned _
        · exact exitsOnlyWithOne_returned _
      · exact exitsOnlyWithOne_fault

theorem executePopd_exits (resolve : String → String → String) (info : CmdInfo) (s : Shell) :
    exitsOnlyWithOne (executePopd resolve info s) := by
  unfold executePopd
  split
  · exact exitsOnlyWithOne_returned _
  · split
    · exact exitsOnlyWithOne_returned _
    · split
      · exact exitsOnlyWithOne_returned _
      · simp only
        split
        · exact exitsOnlyWithOne_fault
        · apply exitsOnlyWithOne_andThen _ _ (executeCD_exits _ _ _)
          intro s2
          split <;> exact exitsOnlyWithOne_returned _

theorem executePipe_exits (c : CMD) (s : Shell) : exitsOnlyWithOne (executePipe c s) := by
  unfold executePipe
  split
  · exact exitsOnlyWithOne_fault
  · split
    · exact exitsOnlyWithOne_fault
    · split
      · exact exitsOnlyWithOne_returned _
      · split <;> exact exitsOnlyWithOne_returned _

theorem executeConditional_exits (proc : CMD → Shell → Outcome)
    (hproc : ∀ c s, exitsOnlyWithOne (proc c s)) (info : CmdInfo) (l r : CMD) (s : Shell) :
    exitsOnlyWithOne (executeConditional proc info l r s) := by
  unfold executeConditional
  apply exitsOnlyWithOne_andThen _ _ (hproc _ _)
  intro s1
  simp only
  split_ifs
  · exact hproc _ _
  · exact exitsOnlyWithOne_returned _
  · exact hproc _ _
  · exact exitsOnlyWithOne_returned _
  · exact exitsOnlyWithOne_returned _

theorem executeBackground_exits (proc : CMD → Shell → Outcome)
    (hproc : ∀ c s, exitsOnlyWithOne (proc c s)) (l r : CMD) (s : Shell) :
    exitsOnlyWithOne (executeBackground proc l r s) := by
  unfold executeBackground
  split
  · exact exitsOnlyWithOne_fault
  · simp only
    split
    · exact exitsOnlyWithOne_fault
    · apply exitsOnlyWithOne_andThen
      · split
        · exact hproc _ _
        · exact exitsOnlyWithOne_returned _
      · intro s1
        split
        · exact exitsOnlyWithOne_returned _
        · apply exitsOnlyWithOne_andThen
          · split
            · exact hproc _ _
            · exact exitsOnlyWithOne_returned _
          · intro s3
            exact exitsOnlyWithOne_returned _

/-- Supporting fact for C10: whatever the tree and the results of the system
calls, the only `exit` the calling process can reach inside `process` is the
`exit(EXIT_FAILURE)` of `executePushd`. -/
theorem process_exits_only_in_pushd (resolve : String → String → String) :
    ∀ (fuel : Nat) (c : CMD) (s : Shell), exitsOnlyWithOne (process resolve fuel c s) := by
  intro fuel
  induction fuel with
  | zero =>
    intro c s code s' h
    cases h
  | succ fuel ih =>
    intro c s
    cases c with
    | null => exact exitsOnlyWithOne_fault
    | node info l r =>
      simp only [process]
      split_ifs
      · split
        · exact exitsOnlyWithOne_fault
        · split_ifs
          · exact executeCD_exits _ _ _
          · exact executePushd_exits _ _ _
          · exact executePopd_exits _ _ _
          · unfold executeSingle
            split <;> exact exitsOnlyWithOne_returned _
      · exact executePipe_exits _ _
      · exact executeConditional_exits _ ih _ _ _ _
      · unfold executeSubcommand
        split <;> exact exitsOnlyWithOne_returned _
      · exact exitsOnlyWithOne_andThen _ _ (ih _ _) (fun s1 => ih _ _)
      · exact executeBackground_exits _ ih _ _ _
      · exact exitsOnlyWithOne_returned _

/-- C1 (fails on the code): after `executePipe` on the two-stage pipeline
`echo a | tr a-z A-Z`, with every `pipe` and `fork` succeeding and both
children reaped, descriptor 3 (the read end of the pipe) is still open in the
shell: the open descriptors are 0, 1, 2 before and 0, 1, 2, 3 after.  The
same holds for three stages, where the read end of the first pipe stays
open. -/
theorem executePipe_leaves_read_end_open :
    ((executePipe (.op .PIPE (.simple ["echo", "a"]) (.simple ["tr", "a-z", "A-Z"]))
        { freshShell "/" with
          forkRes := [.child 100, .child 101],
          waitRes := [.reaped 100 0, .reaped 101 0] }).state.map Shell.fds
      = some [0, 1, 2, 3]) ∧
    ((executePipe (.op .PIPE (.simple ["a"]) (.op .PIPE (.simple ["b"]) (.simple ["c"])))
        { freshShell "/" with
          forkRes := [.child 100, .child 101, .child 102],
          waitRes := [.reaped 100 0, .reaped 101 0, .reaped 102 0] }).state.map Shell.fds
      = some [0, 1, 2, 3]) := by
  constructor <;> decide

/-- C2: for a pipeline of `N` stages whose `pipe` and `fork` calls succeed
and whose wait loop reaps `N` children of the pipeline (in any order, with
any exit codes, and with any number of other children reaped in between),
`executePipe` returns with `?` set to the decimal string of the exit code of
the last member in reap order whose exit code is non-zero, and to "0" when
every member exited with 0. -/
theorem executePipe_status_rule (t : CMD) (s : Shell) (pids : List Nat) (fr : List ForkRes)
    (ws : List (Nat × Int)) (wr : List WaitRes)
    (ht : isPipeTree t = true)
    (hpipe : ∀ r ∈ s.pipeRes, r = Sys.ok)
    (hfork : s.forkRes = pids.map ForkRes.child ++ fr)
    (hN : pids.length = (pipeStages t).length)
    (hwait : s.waitRes = ws.map (fun w => WaitRes.reaped w.1 w.2) ++ wr)
    (hall : (ws.filter (fun w => pids.contains w.1)).length = pids.length) :
    ∃ s', executePipe t s = .returned s' ∧
      s'.status = toString (lastNonZero (memberCodes pids ws)) := by
  obtain ⟨s3, hrun, hw3, _⟩ := executePipe_forks t s pids fr ht hpipe hfork hN
  have hN2 := (isPipeTree_flatten t ht).2.1
  refine ⟨_, hrun, ?_⟩
  rw [hw3, hwait]
  exact pipeWait_status _ pids wr ws 0 0 s3 (by omega) (by rw [hall, hN]; rfl)
    (Or.inl (by omega))

/-- C2, at `a | b | c` with PIDs 100, 101, 102: the children are reaped in
the order 102 (exit code 3), a stray child 7, 100 (exit code 1), 101 (exit
code 0), and `?` ends as "1", the code of the last non-zero member reaped. -/
theorem executePipe_status_rule_witness :
    ∃ s', executePipe (.op .PIPE (.simple ["a"]) (.op .PIPE (.simple ["b"]) (.simple ["c"])))
        { freshShell "/" with
          forkRes := [.child 100, .child 101, .child 102],
          waitRes := [.reaped 102 768, .reaped 7 0, .reaped 100 256, .reaped 101 0] }
        = .returned s' ∧ s'.status = "1" := by
  obtain ⟨s', h1, h2⟩ := executePipe_status_rule
    (.op .PIPE (.simple ["a"]) (.op .PIPE (.simple ["b"]) (.simple ["c"])))
    { freshShell "/" with
      forkRes := [.child 100, .child 101, .child 102],
      waitRes := [.reaped 102 768, .reaped 7 0, .reaped 100 256, .reaped 101 0] }
    [100, 101, 102] [] [(102, 768), (7, 0), (100, 256), (101, 0)] []
    (by decide) (by simp [freshShell]) (by rfl) (by decide) (by rfl) (by decide)
  exact ⟨s', h1, by rw [h2]; decide⟩

/-- C4: once the left child has been processed and has left the state `s1`,
`executeConditional` on a SEP_AND node goes on to process the right child
exactly when `?` is "0" in `s1`, and on a SEP_OR node exactly when `?` is not
"0" in `s1`; when the right child is skipped the handler returns `s1` as it
is, so `?` is what the left child left. -/
theorem executeConditional_short_circuit (proc : CMD → Shell → Outcome) (info : CmdInfo)
    (left right : CMD) (s s1 : Shell) (hleft : proc left s = .returned s1) :
    (info.type = .SEP_AND →
      (s1.status = "0" → executeConditional proc info left right s = proc right s1) ∧
      (s1.status ≠ "0" → executeConditional proc info left right s = .returned s1)) ∧
    (info.type = .SEP_OR →
      (s1.status ≠ "0" → executeConditional proc info left right s = proc right s1) ∧
      (s1.status = "0" → executeConditional proc info left right s = .returned s1)) := by
  refine ⟨fun hty => ⟨fun h => ?_, fun h => ?_⟩, fun hty => ⟨fun h => ?_, fun h => ?_⟩⟩ <;>
    simp [executeConditional, hleft, Outcome.andThen, hty, h]

/-- C4, at `false && echo unreachable` and `false || echo ok`, where `false`
is child 100 and exits with code 1: the left child leaves `?` = "1"; the
SEP_AND node returns that very state, in which `process` was entered for
`false` only; the SEP_OR node goes on to process `echo ok`. -/
theorem executeConditional_short_circuit_witness :
    process literalPath 1 (.simple ["false"]) afterFalse.1 = .returned afterFalse.2 ∧
    afterFalse.2.status = "1" ∧
    entered afterFalse.2.trace = [.simple ["false"]] ∧
    executeConditional (process literalPath 1) (CmdInfo.plain .SEP_AND [])
      (.simple ["false"]) (.simple ["echo", "unreachable"]) afterFalse.1
      = .returned afterFalse.2 ∧
    executeConditional (process literalPath 1) (CmdInfo.plain .SEP_OR [])
      (.simple ["false"]) (.simple ["echo", "ok"]) afterFalse.1
      = process literalPath 1 (.simple ["echo", "ok"]) afterFalse.2 ∧
    ((process literalPath 1 (.simple ["echo", "ok"]) afterFalse.2).state.map
      (fun s2 => (s2.status, entered s2.trace))) =
      some ("0", [.simple ["false"], .simple ["echo", "ok"]]) :=
  ⟨by decide, by decide, by decide,
    ((executeConditional_short_circuit (process literalPath 1)
      (CmdInfo.plain .SEP_AND []) (.simple ["false"]) (.simple ["echo", "unreachable"])
      afterFalse.1 afterFalse.2 (by decide)).1 rfl).2 (by decide),
    ((executeConditional_short_circuit (process literalPath 1)
      (CmdInfo.plain .SEP_OR []) (.simple ["false"]) (.simple ["echo", "ok"])
      afterFalse.1 afterFalse.2 (by decide)).2 rfl).1 (by decide),
    by decide⟩

/-- C6 (fails on the code): from an unallocated directory stack and working
directory `/`, with every `chdir` and `getcwd` succeeding, the sequence
`pushd ..`, `popd` does not bring the shell back to `/` with an empty stack:
the first command already reads in front of the `pwd` buffer while looking
for the parent of `/`.  Started in `/a` the same two commands do return to
`/a` with an empty stack, and so do five `pushd` followed by five `popd`
started in `/w`, across the doubling of the capacity from 4 to 8. -/
theorem pushd_dotdot_at_root_faults :
    runAll literalPath [.simple ["pushd", ".."], .simple ["popd"]] (freshShell "/") = .fault ∧
    ((runAll literalPath [.simple ["pushd", ".."], .simple ["popd"]] (freshShell "/a")).state.map
        (fun s => (s.cwd, s.stackSize)) = some ("/a", 0)) ∧
    ((runAll literalPath
        ([.simple ["pushd", "/a"], .simple ["pushd", "b"], .simple ["pushd", "./c"],
          .simple ["pushd", ".."], .simple ["pushd", "/e"]] ++
          List.replicate 5 (.simple ["popd"]))
        (freshShell "/w")).state.map
        (fun s => (s.cwd, s.stackSize, s.directoryStack.map charStack.capacity))
      = some ("/w", 0, some 8)) := by
  refine ⟨by decide, by decide, by decide⟩

/-- C7: for every directory stack built by `executePushd` and every pushd
node with exactly one argument whose cd logic reaches `chdir` and `chdir`
fails with a non-zero `errno`, `executePushd` returns with `?` set to that
error number (so not "0"), the entries of the directory stack are the same
sequence as before, the working directory is unchanged and nothing has been
written to standard output. -/
theorem executePushd_failure_restores (resolve : String → String → String) (info : CmdInfo)
    (name d : String) (s : Shell) (e : Nat) (rest : List Sys)
    (hargv : info.argv = [name, d])
    (hstack : s.stackOk = true)
    (hg : ∀ r ∈ s.getcwdRes, r = Sys.ok)
    (habs : isAbsolute s.cwd = true)
    (hdot : d ≠ ".")
    (hroot : startsDotDot d = true → s.cwd ≠ "/")
    (hchdir : s.chdirRes = .fail e :: rest) (he : e ≠ 0) :
    ∃ s', executePushd resolve info s = .returned s' ∧
      s'.status = toString e ∧ s'.status ≠ "0" ∧
      s'.stackEntries = s.stackEntries ∧ s'.cwd = s.cwd ∧ s'.out = s.out := by
  have h2 : (info.argv[2]?).isSome = false := by rw [hargv]; rfl
  obtain ⟨hok0, hent0⟩ := stackAlloc_ok s hstack
  obtain ⟨hsz, hlt, _, htake, _⟩ := stackGrow_ok _ hok0
  have hg' : ∀ r ∈ s.getcwdRes.tail, r = Sys.ok := fun r hr => hg r (List.mem_of_mem_tail hr)
  obtain ⟨directory, s', hcd, hs'⟩ := executeCD_reaches_chdir resolve info name d
    { s with
      getcwdRes := s.getcwdRes.tail,
      directoryStack := some
        { stackGrow (stackAlloc s.directoryStack) with
          elements := (stackGrow (stackAlloc s.directoryStack)).elements.set
            (stackGrow (stackAlloc s.directoryStack)).size s.cwd,
          size := (stackGrow (stackAlloc s.directoryStack)).size + 1 } }
    hargv hdot hg' habs hroot
  have hne := toString_ne_zero e he
  have hentries :
      List.take ((stackGrow (stackAlloc s.directoryStack)).size + 1 - 1)
        ((stackGrow (stackAlloc s.directoryStack)).elements.set
          (stackGrow (stackAlloc s.directoryStack)).size s.cwd) = s.stackEntries := by
    rw [Nat.add_sub_cancel, take_set_self, hsz, htake, hent0]
  obtain ⟨hst, hcwd, hout, hds⟩ := cdChdir_fail resolve directory s' e rest
    (by rcases hs' with rfl | rfl <;> exact hchdir)
  have hst0 : ¬ (cdChdir resolve directory s').status = "0" := by rw [hst]; exact hne
  simp only [executePushd, h2, Bool.false_eq_true, if_false, Shell.getcwd_ok s hg, hlt, if_true,
    hcd, Outcome.andThen, hst0]
  refine ⟨_, rfl, hst, hst0, ?_, ?_, ?_⟩
  · exact hentries
  · rw [hcwd]; rcases hs' with rfl | rfl <;> rfl
  · rw [hout]; rcases hs' with rfl | rfl <;> rfl

/-- C7, at `pushd nowhere` run in `/a/b/c/d` with a full four-entry stack
and `chdir` failing with ENOENT: `?` becomes "2", the four entries, the
working directory and standard output are as before. -/
theorem executePushd_failure_restores_witness :
    ∃ s', executePushd literalPath (CmdInfo.plain .SIMPLE ["pushd", "nowhere"]) fullStackShell
        = .returned s' ∧
      s'.status = "2" ∧ s'.stackEntries = ["/", "/a", "/a/b", "/a/b/c"] ∧
      s'.cwd = "/a/b/c/d" ∧ s'.out = "" := by
  obtain ⟨s', h1, h2, _, h4, h5, h6⟩ := executePushd_failure_restores literalPath
    (CmdInfo.plain .SIMPLE ["pushd", "nowhere"]) "pushd" "nowhere" fullStackShell 2 []
    rfl (by decide) (by simp [fullStackShell, freshShell]) (by decide) (by decide)
    (by decide) rfl (by decide)
  exact ⟨s', h1, by rw [h2]; decide, h4, h5, h6⟩

/-- C8 (fails on the code): `executePushd` on argv = ["pushd"], run in `/tmp`
with HOME = `/home/u`, reports no usage error: it pushes `/tmp`, changes to
HOME, prints the listing and leaves `?` = "0".  With two arguments it does
report the usage error and changes nothing else. -/
theorem executePushd_no_argument_goes_home :
    ((executePushd literalPath (CmdInfo.plain .SIMPLE ["pushd"]) (freshShell "/tmp")).state.map
        (fun s => (s.status, s.stackEntries, s.cwd, s.out, s.err))
      = some ("0", ["/tmp"], "/home/u", "/home/u /tmp\n", "")) ∧
    ((executePushd literalPath (CmdInfo.plain .SIMPLE ["pushd", "/a", "/b"])
        (freshShell "/tmp")).state.map
        (fun s => (s.status, s.stackEntries, s.cwd, s.out, s.err))
      = some ("1", [], "/tmp", "", "usage: pushd <dirName>\n")) := by
  constructor <;> decide

/-- C9 (fails on the code): with working directory `/tmp` and argument `..`
the path `executeCD` passes to `chdir` is the empty string, not `/`; with
`/a/b` and `../c` it is `/a/c`; with working directory `/` the scan for the
previous `/` reads in front of the buffer. -/
theorem executeCD_parent_of_single_component :
    cdParentPath "/tmp" ".." = some "" ∧
    ((executeCD literalPath (CmdInfo.plain .SIMPLE ["cd", ".."]) (freshShell "/tmp")).state.map
        Shell.cwd = some "") ∧
    cdParentPath "/a/b" "../c" = some "/a/c" ∧
    ((executeCD literalPath (CmdInfo.plain .SIMPLE ["cd", "../c"]) (freshShell "/a/b")).state.map
        Shell.cwd = some "/a/c") ∧
    executeCD literalPath (CmdInfo.plain .SIMPLE ["cd", ".."]) (freshShell "/") = .fault := by
  refine ⟨by decide, by decide, by decide, by decide, by decide⟩

/-- C10 (fails on the code): `process` on `pushd /tmp`, when the `getcwd`
call at the top of `executePushd` fails, ends with the shell process calling
`exit(1)`; it does not return to its caller. -/
theorem process_pushd_exits_shell :
    ∃ s', process literalPath 1 (.simple ["pushd", "/tmp"])
        { freshShell "/gone" with getcwdRes := [.fail 2] } = .exited 1 s' ∧
      entered s'.trace = [.simple ["pushd", "/tmp"]] ∧ s'.trace.length = 1 :=
  ⟨_, rfl, by decide, by decide⟩

theorem setLocals_take (info : CmdInfo) :
    ∀ n : Nat, n ≤ info.locVar.length → n ≤ info.locVal.length →
      setLocals info n = some ((info.locVar.zip info.locVal).take n) := by
  intro n
  induction n with
  | zero => intro _ _; simp [setLocals]
  | succ n ih =>
    intro h1 h2
    have hv : info.locVar[n]? = some info.locVar[n] := List.getElem?_eq_getElem (by omega)
    have hw : info.locVal[n]? = some info.locVal[n] := List.getElem?_eq_getElem (by omega)
    have hz : (info.locVar.zip info.locVal)[n]? = some (info.locVar[n], info.locVal[n]) := by
      rw [List.getElem?_eq_getElem (by simp; omega)]
      simp
    simp only [setLocals, ih (by omega) (by omega), hv, hw]
    rw [List.take_succ, hz]
    rfl

theorem setLocals_bindings (info : CmdInfo) (h1 : info.locVar.length = info.nLocal)
    (h2 : info.locVal.length = info.nLocal) :
    setLocals info info.nLocal = some (localBindings info) :=
  setLocals_take info info.nLocal (by omega) (by omega)

theorem isStage_cases (c : CMD) (h : isStage c = true) :
    ∃ info l r, c = .node info l r ∧ (info.type = .SIMPLE ∨ info.type = .SUBCMD) ∧
      setLocals info info.nLocal = some (localBindings info) := by
  cases c with
  | null => simp [isStage] at h
  | node info l r =>
    simp only [isStage, Bool.and_eq_true, Bool.or_eq_true, decide_eq_true_eq] at h
    exact ⟨info, l, r, rfl, h.1.1, setLocals_bindings info h.1.2 h.2⟩

theorem openOrExit_ok (opens : List Sys) (h : ∀ r ∈ opens, r = Sys.ok) :
    openOrExit opens = .ok opens.tail := by
  cases opens with
  | nil => rfl
  | cons r rest =>
    have := h r (by simp)
    subst this
    rfl

theorem redirectFile_ok (info : CmdInfo) (opens : List Sys)
    (h : ∀ r ∈ opens, r = Sys.ok)
    (hhere : info.fromType = .RED_IN_HERE → info.fromFile ≠ none) :
    ∃ rest, redirectFile info opens = some (.ok rest) := by
  have htail : ∀ r ∈ opens.tail, r = Sys.ok := mem_tail_ok opens h
  have e1 := openOrExit_ok opens h
  have e2 := openOrExit_ok opens.tail htail
  have hne : ¬ RedType.RED_IN_HERE = RedType.RED_IN := by decide
  by_cases h1 : info.fromType = .RED_IN <;> by_cases h2 : info.fromType = .RED_IN_HERE <;>
    by_cases h3 : info.toType = .RED_OUT <;> by_cases h4 : info.toType = .RED_OUT_APP <;>
    first
    | (have h5 := hhere h2
       simp only [redirectFile, h1, h2, h3, h4, h5, e1, e2, if_true, if_false, hne]
       exact ⟨_, rfl⟩)
    | (simp only [redirectFile, h1, h2, h3, h4, e1, e2, if_true, if_false]
       exact ⟨_, rfl⟩)

/-- Supporting fact for C11: for a pipeline of `N ≥ 2` stages, each SIMPLE or
SUBCMD, whose PIPE root carries no bindings of its own and whose redirections
all open (a here-document having its text), the child forked for stage `k` makes the `setenv` calls of stage
`k`'s bindings when `k = 0`, and also when stage `k` is the last stage and a
SUBCMD; in every other stage it makes none. -/
theorem stageSetenv_bindings (t : CMD) (k : Nat) (opens : List Sys)
    (ht : isPipeTree t = true)
    (hroot : t.nLocal = 0) (hstages : ∀ c ∈ pipeStages t, isStage c = true)
    (hk : k < (pipeStages t).length) (hopen : ∀ r ∈ opens, r = Sys.ok)
    (hhere : hasHereText ((pipeStages t).getD k .null) = true) :
    stageSetenv t k opens =
      some (if k = 0 ∨ (k = (pipeStages t).length - 1 ∧
                isSubcmd ((pipeStages t).getD k .null) = true)
            then ((pipeStages t).getD k .null).bindings else []) := by
  obtain ⟨hcount, hN2, hflat⟩ := isPipeTree_flatten t ht
  have hget : (pipeStages t)[k]? = some (pipeStages t)[k] := List.getElem?_eq_getElem hk
  obtain ⟨info, l, r, hc, hty, hset⟩ := isStage_cases _ (hstages _ (List.getElem_mem hk))
  have hgetD : (pipeStages t).getD k .null = .node info l r := by
    simp [hget, hc]
  obtain ⟨orest, hred⟩ := redirectFile_ok info opens hopen (by
    intro hty hnone
    rw [hgetD] at hhere
    simp [hasHereText, hty, hnone] at hhere)
  cases t with
  | null => simp [isPipeTree] at ht
  | node root tl tr =>
    have hroot0 : root.nLocal = 0 := hroot
    simp only [stageSetenv, hcount, hflat]
    by_cases hlt : k < (pipeStages (.node root tl tr)).length - 1
    · have hne : ¬ k = (pipeStages (.node root tl tr)).length - 1 := by omega
      simp only [hlt, if_true, pipeChainChild, hgetD, hroot0, setLocals, hne, false_and,
        or_false]
      by_cases hk0 : k = 0
      · simp only [hk0, if_true, hset, CMD.bindings, hred]
        rcases hty with h | h
        · simp [h]
        · simp [h]
      · simp only [hk0, if_false, hred]
        rcases hty with h | h
        · simp [h]
        · simp [h]
    · have heq : k = (pipeStages (.node root tl tr)).length - 1 := by omega
      have hk0 : ¬ k = 0 := by omega
      have hgetD' : (pipeStages (.node root tl tr)).getD
          ((pipeStages (.node root tl tr)).length - 1) .null = .node info l r := by
        rw [← heq]; exact hgetD
      simp only [hlt, if_false, heq, if_true, pipeLastChild, hgetD', isSubcmd, CMD.bindings,
        true_and, hred]
      have hN0 : ¬ (pipeStages (.node root tl tr)).length - 1 = 0 := by omega
      rcases hty with h | h
      · simp [h, hN0]
      · simp [h, hset]

/-- The fact `stageSetenv_bindings` at `Y=2 a | X=1 (b) | X=1 (b)` without
redirections: stage 0 sets `Y=2`, the SUBCMD in the middle sets nothing, the
SUBCMD in last place sets `X=1`. -/
theorem stageSetenv_bindings_witness :
    isPipeTree (.op .PIPE simpleWithY (.op .PIPE subcmdWithX subcmdWithX)) = true ∧
    stageSetenv (.op .PIPE simpleWithY (.op .PIPE subcmdWithX subcmdWithX)) 0 []
      = some [("Y", "2")] ∧
    stageSetenv (.op .PIPE simpleWithY (.op .PIPE subcmdWithX subcmdWithX)) 1 [] = some [] ∧
    stageSetenv (.op .PIPE simpleWithY (.op .PIPE subcmdWithX subcmdWithX)) 2 []
      = some [("X", "1")] :=
  ⟨by decide,
    stageSetenv_bindings (.op .PIPE simpleWithY (.op .PIPE subcmdWithX subcmdWithX)) 0 []
      (by decide) (by decide) (by decide) (by decide) (by simp) (by decide),
    stageSetenv_bindings (.op .PIPE simpleWithY (.op .PIPE subcmdWithX subcmdWithX)) 1 []
      (by decide) (by decide) (by decide) (by decide) (by simp) (by decide),
    stageSetenv_bindings (.op .PIPE simpleWithY (.op .PIPE subcmdWithX subcmdWithX)) 2 []
      (by decide) (by decide) (by decide) (by decide) (by simp) (by decide)⟩

/-- C11 (fails on the code): in the two-stage pipeline `Y=2 a | X=1 (b)`,
without redirections, stage 0 sets `Y=2` as claimed, but the child of stage 1,
the last stage and a SUBCMD with `nLocal = 1`, does call `setenv("X", "1")`
before it processes its body.  With `(b)` replaced by the SIMPLE command
`X=1 b` the child of stage 1 sets nothing, and with the input of `(b)`
redirected from a file that does not open the child ends in `redirectFile`
before the call. -/
theorem stageSetenv_last_subcmd_sets_locals :
    stageSetenv (.op .PIPE simpleWithY subcmdWithX) 0 [] = some [("Y", "2")] ∧
    stageSetenv (.op .PIPE simpleWithY subcmdWithX) 1 [] = some [("X", "1")] ∧
    stageSetenv (.op .PIPE simpleWithY subcmdWithX) 1 [] ≠ some [] ∧
    subcmdWithX.nLocal > 0 ∧ isSubcmd subcmdWithX = true ∧
    (pipeStages (.op .PIPE simpleWithY subcmdWithX)).length = 2 ∧
    stageSetenv (.op .PIPE simpleWithY simpleWithX) 1 [] = some [] ∧
    stageSetenv (.op .PIPE simpleWithY subcmdWithXFrom) 1 [.fail 2] = some [] ∧
    stageSetenv (.op .PIPE simpleWithY subcmdWithXFrom) 1 [] = some [("X", "1")] := by
  refine ⟨by decide, by decide, by decide, by decide, by decide, by decide, by decide,
    by decide, by decide⟩

theorem pipeWait_done (size : Nat) (pids : List Nat) (ws : List WaitRes) (i status : Nat)
    (s : Shell) (h : ¬ i < size) :
    pipeWait size pids ws i status s = { s with waitRes := ws } := by
  cases ws with
  | nil => rfl
  | cons w rest => simp only [pipeWait, h, if_false]

theorem pipeWait_consumes (size : Nat) (pids : List Nat) (rest : List WaitRes)
    (m : Nat × Int) (hm : pids.contains m.1 = true) :
    ∀ (pre : List (Nat × Int)) (i status : Nat) (s : Shell),
      i + (pre.filter (fun w => pids.contains w.1)).length + 1 = size →
      (pipeWait size pids ((pre ++ [m]).map (fun w => WaitRes.reaped w.1 w.2) ++ rest)
          i status s).waitRes = rest ∧
      (pipeWait size pids ((pre ++ [m]).map (fun w => WaitRes.reaped w.1 w.2) ++ rest)
          i status s).zombies =
        s.zombies - ((pre.filter (fun w => !pids.contains w.1)).length : Int) := by
  intro pre
  induction pre with
  | nil =>
    intro i status s hcount
    simp only [List.filter_nil, List.length_nil, Nat.add_zero] at hcount
    have hlt : i < size := by omega
    have hdone : ¬ i + 1 < size := by omega
    simp only [List.nil_append, List.map_cons, List.map_nil, List.cons_append, pipeWait, hlt,
      if_true, hm, pipeWait_done _ _ _ _ _ _ hdone, List.filter_nil, List.length_nil]
    exact ⟨rfl, by simp⟩
  | cons w pre ih =>
    intro i status s hcount
    obtain ⟨pid, raw⟩ := w
    have hlt : i < size := by omega
    by_cases hmem : pids.contains pid = true
    · simp only [List.filter_cons, hmem, if_true, List.length_cons] at hcount
      have h := ih (i + 1) (if STATUS raw ≠ 0 then STATUS raw else status)
        { s with status := toString (if STATUS raw ≠ 0 then STATUS raw else status) }
        (by omega)
      simp only [List.cons_append, List.map_cons, pipeWait, hlt, if_true, hmem]
      have hin : pid ∈ pids := by simpa using hmem
      refine ⟨h.1, h.2.trans ?_⟩
      simp [List.filter_cons, hin]
    · simp only [List.filter_cons, hmem] at hcount
      have h := ih i status
        { s with
          err := s.err ++ "Completed: " ++ toString pid ++ " (" ++ toString status ++ ")\n",
          zombies := s.zombies - 1 }
        (by simpa using hcount)
      simp only [List.cons_append, List.map_cons, pipeWait, hlt, if_true, hmem]
      refine ⟨h.1, h.2.trans ?_⟩
      simp only [List.filter_cons, hmem, Bool.not_false, if_true, List.length_cons]
      push_cast
      omega

/-- C12: for a pipeline of `N` stages whose `pipe` and `fork` calls succeed,
and any sequence of successful `wait` results, the wait loop of `executePipe`
stops right after the `N`-th result that carries the PID of a pipeline
member: the results in front of it, members or not, have all been consumed,
those after it have not, and the zombie counter has gone down by the number of
non-member results consumed. -/
theorem executePipe_wait_budget (t : CMD) (s : Shell) (pids : List Nat) (fr : List ForkRes)
    (pre : List (Nat × Int)) (m : Nat × Int) (rest : List WaitRes)
    (ht : isPipeTree t = true)
    (hpipe : ∀ r ∈ s.pipeRes, r = Sys.ok)
    (hfork : s.forkRes = pids.map ForkRes.child ++ fr)
    (hN : pids.length = (pipeStages t).length)
    (hwait : s.waitRes = (pre ++ [m]).map (fun w => WaitRes.reaped w.1 w.2) ++ rest)
    (hm : pids.contains m.1 = true)
    (hcount : (pre.filter (fun w => pids.contains w.1)).length + 1 = pids.length) :
    ∃ s', executePipe t s = .returned s' ∧ s'.waitRes = rest ∧
      s'.zombies = s.zombies - ((pre.filter (fun w => !pids.contains w.1)).length : Int) := by
  obtain ⟨s3, hrun, hw3, _, hz3⟩ := executePipe_forks t s pids fr ht hpipe hfork hN
  refine ⟨_, hrun, ?_⟩
  rw [hw3, hwait, ← hz3]
  exact pipeWait_consumes _ pids rest m hm pre 0 0 s3 (by omega)

/-- C12, at `a | b` with PIDs 100 and 101: `wait` returns 7, 101, 8, 9, 100
and then 5; the loop consumes the first five results, leaves the sixth, and
the zombie counter goes from 4 to 1. -/
theorem executePipe_wait_budget_witness :
    ∃ s', executePipe (.op .PIPE (.simple ["a"]) (.simple ["b"]))
        { freshShell "/" with
          zombies := 4,
          forkRes := [.child 100, .child 101],
          waitRes := [.reaped 7 0, .reaped 101 0, .reaped 8 0, .reaped 9 256, .reaped 100 0,
                      .reaped 5 0] } = .returned s' ∧
      s'.waitRes = [.reaped 5 0] ∧ s'.zombies = 1 := by
  obtain ⟨s', h1, h2, h3⟩ := executePipe_wait_budget
    (.op .PIPE (.simple ["a"]) (.simple ["b"]))
    { freshShell "/" with
      zombies := 4,
      forkRes := [.child 100, .child 101],
      waitRes := [.reaped 7 0, .reaped 101 0, .reaped 8 0, .reaped 9 256, .reaped 100 0,
                  .reaped 5 0] }
    [100, 101] [] [(7, 0), (101, 0), (8, 0), (9, 256)] (100, 0) [.reaped 5 0]
    (by decide) (by simp [freshShell]) (by rfl) (by decide) (by rfl) (by decide) (by decide)
  exact ⟨s', h1, h2, by rw [h3]; decide⟩

theorem cdChdir_frame (resolve : String → String → String) (directory : String) (s : Shell) :
    (cdChdir resolve directory s).getcwdRes = s.getcwdRes ∧
    (cdChdir resolve directory s).directoryStack = s.directoryStack ∧
    (cdChdir resolve directory s).out = s.out := by
  unfold cdChdir Shell.chdir
  split
  · rename_i e s1 heq
    split at heq
    · cases heq
      exact ⟨rfl, rfl, rfl⟩
    · cases heq
  · rename_i s1 heq
    split at heq
    · cases heq
    · cases heq
      exact ⟨rfl, rfl, rfl⟩

/-- C13: for a popd node without arguments, a directory stack built by
`executePushd` with at least one live entry, all of them absolute paths, and
`getcwd` succeeding, `executePopd` returns with `?` = "0", the stack one entry
shorter (the top entry is gone, the others are as before) and the listing of
the working directory and the remaining entries appended to standard output,
whatever the result of the `chdir` to the popped directory; when that `chdir`
fails the shell stays in the directory it was in. -/
theorem executePopd_ignores_chdir_result (resolve : String → String → String)
    (info : CmdInfo) (name : String) (s : Shell)
    (hargv : info.argv = [name]) (hstack : s.stackOk = true) (hsize : 0 < s.stackSize)
    (habs : ∀ e ∈ s.stackEntries, isAbsolute e = true)
    (hg : ∀ r ∈ s.getcwdRes, r = Sys.ok) :
    ∃ s', executePopd resolve info s = .returned s' ∧
      s'.status = "0" ∧ s'.stackSize + 1 = s.stackSize ∧
      s'.stackEntries = s.stackEntries.dropLast ∧
      s'.out = s.out ++
        (s'.cwd ++ String.join ((s'.stackEntries.reverse).map (fun e => " " ++ e)) ++ "\n") ∧
      (∀ e rest, s.chdirRes = .fail e :: rest → s'.cwd = s.cwd) := by
  have h1 : (info.argv[1]?).isSome = false := by rw [hargv]; rfl
  unfold Shell.stackOk at hstack
  unfold Shell.stackSize at hsize
  unfold Shell.stackEntries at habs
  cases hds : s.directoryStack with
  | none => rw [hds] at hsize; exact absurd hsize (Nat.lt_irrefl 0)
  | some ds =>
    rw [hds] at hstack hsize habs
    simp only [charStack.ok, Bool.and_eq_true, decide_eq_true_eq] at hstack hsize habs
    obtain ⟨⟨hle, hlen⟩, hcap⟩ := hstack
    have hne : ¬ ds.size = 0 := by omega
    have hidx : ds.size - 1 < ds.elements.length := by omega
    have hget : ds.elements[ds.size - 1]? = some ds.elements[ds.size - 1] :=
      List.getElem?_eq_getElem hidx
    have hmem : ds.elements[ds.size - 1] ∈ ds.elements.take ds.size := by
      rw [List.mem_iff_getElem?]
      refine ⟨ds.size - 1, ?_⟩
      rw [List.getElem?_take, if_pos (by omega), hget]
    have htop : (ds.elements[ds.size - 1]).data[0]? = some '/' := by
      have := habs _ hmem
      simpa [isAbsolute] using this
    have hcd : ∀ sP : Shell,
        executeCD resolve { info with argv := info.argv.take 1 ++ [ds.elements[ds.size - 1]] } sP
          = .returned (cdChdir resolve ds.elements[ds.size - 1] sP) := by
      intro sP
      simp [executeCD, hargv, htop]
    obtain ⟨f1, f2, f3⟩ := cdChdir_frame resolve ds.elements[ds.size - 1]
      { s with directoryStack := some { ds with size := ds.size - 1 } }
    have hgo := Shell.getcwd_ok
      (cdChdir resolve ds.elements[ds.size - 1]
        { s with directoryStack := some { ds with size := ds.size - 1 } })
      (by rw [f1]; exact hg)
    simp only [executePopd, h1, Bool.false_eq_true, if_false, hds, hne, hget, hcd,
      Outcome.andThen, hgo]
    refine ⟨_, rfl, rfl, ?_, ?_, ?_, ?_⟩
    · show Shell.stackSize { cdChdir resolve _ _ with getcwdRes := _, status := _, out := _ } + 1
        = Shell.stackSize s
      unfold Shell.stackSize
      simp only [f2, hds]
      omega
    · show Shell.stackEntries { cdChdir resolve _ _ with getcwdRes := _, status := _, out := _ }
        = (Shell.stackEntries s).dropLast
      unfold Shell.stackEntries
      simp only [f2, hds]
      rw [List.dropLast_eq_take, List.take_take, List.length_take]
      congr 1
      omega
    · show _ ++ dirListing _ _ = _
      simp only [f3]
      unfold dirListing Shell.stackEntries
      simp only [f2]
    · intro e rest hfail
      exact (cdChdir_fail resolve ds.elements[ds.size - 1]
        { s with directoryStack := some { ds with size := ds.size - 1 } } e rest hfail).2.1

/-- C13, at `popd` run in `/x` with `/gone` on top of `/` and the `chdir` to
`/gone` failing: `?` is "0", only `/` is left on the stack, the shell is still
in `/x`, and the listing `/x /` has been printed. -/
theorem executePopd_ignores_chdir_result_witness :
    ∃ s', executePopd literalPath (CmdInfo.plain .SIMPLE ["popd"]) goneTopShell = .returned s' ∧
      s'.status = "0" ∧ s'.stackSize = 1 ∧ s'.stackEntries = ["/"] ∧ s'.cwd = "/x" ∧
      s'.out = "/x /\n" := by
  obtain ⟨s', h1, h2, h3, h4, h5, h6⟩ := executePopd_ignores_chdir_result literalPath
    (CmdInfo.plain .SIMPLE ["popd"]) "popd" goneTopShell rfl (by decide) (by decide)
    (by decide) (by simp [goneTopShell, freshShell])
  have hcwd : s'.cwd = "/x" := h6 2 [] rfl
  have hent : s'.stackEntries = ["/"] := by rw [h4]; decide
  refine ⟨s', h1, h2, ?_, hent, hcwd, ?_⟩
  · have : goneTopShell.stackSize = 2 := by decide
    omega
  · rw [h5, hcwd, hent]
    decide

end MiniBash
